import Mathlib

set_option maxRecDepth 20000

/-!
Shallow embedding of the lesson-content-extractor pipeline
(`src/main.py`, `src/utils/text_processing.py`, `src/utils/gemini_helper.py`,
`src/extractors/*.py`, `src/generators/*.py`).

Strings are modelled as `String` / `List Char`; Python dicts of fixed shape
become structures; Python `set`s used only for membership become
insertion-ordered lists with membership-checked insertion; the process-global
random source (`random.shuffle`, `random.choice`) is passed in as an explicit
function parameter, with the permutation property assumed where a theorem
needs it.  All inputs in scope are ASCII, so `String.toLower` agrees with
Python `str.lower` and `Char.isAlphanum`-based word characters agree with the
regex `\w` class on them.
-/

namespace LessonExtractor

/-- Python `str` whitespace: space, tab, newline, carriage return,
vertical tab (0x0b), form feed (0x0c). -/
def pyIsSpace (c : Char) : Bool :=
  c = ' ' || c = '\t' || c = '\n' || c = '\r' || c = Char.ofNat 11 || c = Char.ofNat 12

/-- Python regex `\w` on ASCII text: letters, digits, underscore. -/
def pyIsWordChar (c : Char) : Bool :=
  c.isAlphanum || c = '_'

/-- ASCII apostrophe character, used in some literal word lists of the source. -/
def apos : Char := Char.ofNat 39

/-- `s.strip(chars)` on a char list: drop the given characters from both ends. -/
def pyStripCharsL (chars : List Char) (s : List Char) : List Char :=
  ((s.dropWhile (chars.contains ·)).reverse.dropWhile (chars.contains ·)).reverse

/-- Python `str.strip()` (no argument): strip whitespace from both ends. -/
def pyStripL (s : List Char) : List Char :=
  ((s.dropWhile pyIsSpace).reverse.dropWhile pyIsSpace).reverse

def pyStrip (s : String) : String := ⟨pyStripL s.data⟩

def pyStripChars (chars : List Char) (s : String) : String :=
  ⟨pyStripCharsL chars s.data⟩

/-- Python `str.split()` with no separator: split on whitespace runs,
dropping empty pieces.  `cur` is the reversed current run. -/
def pySplitWsAux (cur : List Char) : List Char → List (List Char)
  | [] => if cur.isEmpty then [] else [cur.reverse]
  | c :: rest =>
    if pyIsSpace c then
      if cur.isEmpty then pySplitWsAux [] rest
      else cur.reverse :: pySplitWsAux [] rest
    else pySplitWsAux (c :: cur) rest

def pySplitWsL (s : List Char) : List (List Char) := pySplitWsAux [] s

def pySplitWs (s : String) : List String :=
  (pySplitWsL s.data).map (⟨·⟩)

/-- Python `s.split(sep)` for a non-empty separator: split on every
(non-overlapping, leftmost) occurrence, keeping empty pieces.  Structural
recursion on a fuel bounded by the input length (each step consumes at
least one character, so the fuel never runs out). -/
def pySplitOnF (sep : List Char) : Nat → List Char → List (List Char)
  | _, [] => [[]]
  | 0, s => [s]
  | fuel + 1, c :: rest =>
    if sep.isPrefixOf (c :: rest) ∧ sep ≠ [] then
      [] :: pySplitOnF sep fuel ((c :: rest).drop sep.length)
    else
      match pySplitOnF sep fuel rest with
      | [] => [[c]]
      | piece :: pieces => (c :: piece) :: pieces

def pySplitOnL (sep : List Char) (s : List Char) : List (List Char) :=
  pySplitOnF sep s.length s

def pySplitOn (sep : String) (s : String) : List String :=
  (pySplitOnL sep.data s.data).map (⟨·⟩)

/-- Substring test on char lists (Python `needle in haystack`). -/
def isSubL (needle : List Char) : List Char → Bool
  | [] => needle.isEmpty
  | c :: rest => needle.isPrefixOf (c :: rest) || isSubL needle rest

/-- Python membership `needle in haystack` on strings (substring test). -/
def pyIn (needle haystack : String) : Bool :=
  isSubL needle.data haystack.data

/-- Python `s.replace(old, new)`: replace all non-overlapping, leftmost
occurrences. `old` is non-empty at every call site of the embedding.
Fuel-structured like `pySplitOnF`. -/
def pyReplaceF (old new : List Char) : Nat → List Char → List Char
  | _, [] => []
  | 0, s => s
  | fuel + 1, c :: rest =>
    if old.isPrefixOf (c :: rest) ∧ old ≠ [] then
      new ++ pyReplaceF old new fuel ((c :: rest).drop old.length)
    else
      c :: pyReplaceF old new fuel rest

def pyReplaceL (old new s : List Char) : List Char :=
  pyReplaceF old new s.length s

def pyReplace (old new s : String) : String :=
  ⟨pyReplaceL old.data new.data s.data⟩

/-- Python `s.lower()` on ASCII text. -/
def pyLower (s : String) : String := ⟨s.data.map Char.toLower⟩

/-- Python `s.startswith(t)`. -/
def pyStartsWith (t s : String) : Bool := t.data.isPrefixOf s.data

/-- Python slicing `s[:n]` on strings. -/
def pyTake (n : Nat) (s : String) : String := ⟨s.data.take n⟩

/-- Number of (possibly overlapping) start positions at which `pat` occurs
in `s`; "`pat` occurs exactly once" is `countSub pat s = 1`. -/
def countSub (pat : List Char) : List Char → Nat
  | [] => 0
  | c :: rest => (if pat.isPrefixOf (c :: rest) then 1 else 0) + countSub pat rest

/-!
## A small backtracking matcher for the regular expressions of the source

The regexes used by `text_processing.py` and `fill_in_blank.py` are built
from literals, character classes, `+`/`*` over classes, optional groups,
alternations of literals, and the word-boundary assertion `\b`.  The matcher
below implements exactly those constructs with Python's leftmost, greedy,
backtracking semantics.  The matcher threads the previous character so `\b`
can be decided, and is written in continuation-passing style so greedy
quantifiers can backtrack through the continuation.
-/

/-- One regex atom. -/
inductive Atom where
  /-- a case-sensitive literal -/
  | lit (cs : List Char)
  /-- a case-insensitive literal (for `re.IGNORECASE` patterns) -/
  | litCI (cs : List Char)
  /-- a single-character class -/
  | cls (p : Char → Bool)
  /-- `+` over a character class, greedy -/
  | plus (p : Char → Bool)
  /-- `*` over a character class, greedy -/
  | star (p : Char → Bool)
  /-- the zero-width word-boundary assertion `\b` -/
  | bnd

/-- A regex element: an atom, a greedy optional group `(?:...)?`, or an
alternation `(?:a|b|...)` of atom sequences tried left to right. -/
inductive Pat where
  | atom (a : Atom)
  | opt (q : List Atom)
  | alts (qs : List (List Atom))

/-- Case-insensitive equality of two char lists of equal layout. -/
def ciEq (a b : List Char) : Bool :=
  a.map Char.toLower == b.map Char.toLower

/-- Case-insensitive prefix test. -/
def ciPrefix (pat s : List Char) : Bool :=
  ciEq pat (s.take pat.length) && decide (pat.length ≤ s.length)

/-- Is there a word boundary between `prev` and `next`?  Out-of-string
positions count as non-word. -/
def boundaryAt (prev next : Option Char) : Bool :=
  (match prev with | none => false | some c => pyIsWordChar c) ≠
  (match next with | none => false | some c => pyIsWordChar c)

/-- Greedy `+`/`*`: try consuming `j` characters of the maximal run first,
then backtrack to shorter lengths down to `lo` (1 for `+`, handled by the
caller falling back to the empty consumption for `*`). -/
def tryLens {R : Type} (run rest : List Char) (prev : Option Char)
    (k : Option Char → List Char → Option R) : Nat → Option R
  | 0 => none
  | j + 1 =>
    (k (some (run.getD j prev.iget)) (run.drop (j + 1) ++ rest)) <|>
      tryLens run rest prev k j

/-- Match one atom at the current position, calling the continuation with
the updated previous character and remaining input. -/
def matchAtomK {R : Type} (a : Atom) (prev : Option Char) (s : List Char)
    (k : Option Char → List Char → Option R) : Option R :=
  match a with
  | .lit cs =>
    if cs.isPrefixOf s then
      k (if cs.isEmpty then prev else some (cs.getLastD ' ')) (s.drop cs.length)
    else none
  | .litCI cs =>
    if ciPrefix cs s then
      k (if cs.isEmpty then prev else some ((s.take cs.length).getLastD ' '))
        (s.drop cs.length)
    else none
  | .cls p =>
    match s with
    | [] => none
    | c :: rest => if p c then k (some c) rest else none
  | .plus p =>
    let run := s.takeWhile p
    tryLens run (s.drop run.length) prev k run.length
  | .star p =>
    let run := s.takeWhile p
    (tryLens run (s.drop run.length) prev k run.length) <|> k prev s
  | .bnd => if boundaryAt prev s.head? then k prev s else none

/-- Match a sequence of atoms. -/
def matchAtomsK {R : Type} : List Atom → Option Char → List Char →
    (Option Char → List Char → Option R) → Option R
  | [], prev, s, k => k prev s
  | a :: as, prev, s, k => matchAtomK a prev s (fun p2 s2 => matchAtomsK as p2 s2 k)

/-- Match one pattern element. -/
def matchPatK {R : Type} (p : Pat) (prev : Option Char) (s : List Char)
    (k : Option Char → List Char → Option R) : Option R :=
  match p with
  | .atom a => matchAtomK a prev s k
  | .opt q => (matchAtomsK q prev s k) <|> k prev s
  | .alts qs => qs.foldr (fun q acc => (matchAtomsK q prev s k) <|> acc) none

/-- Match a sequence of pattern elements. -/
def matchPatsK {R : Type} : List Pat → Option Char → List Char →
    (Option Char → List Char → Option R) → Option R
  | [], prev, s, k => k prev s
  | p :: ps, prev, s, k => matchPatK p prev s (fun p2 s2 => matchPatsK ps p2 s2 k)

/-- A capture group of the shape `X Y+` (optional leading single-character
class `X`, then a greedy class `Y+` ending the pattern): every capturing
regex of the source ends with such a group. -/
structure CapSpec where
  lead : Option (Char → Bool)
  body : Char → Bool

/-- Match the trailing capture group and return the captured text. -/
def capMatch (cap : CapSpec) (s : List Char) : Option (List Char) :=
  match cap.lead with
  | some p =>
    match s with
    | [] => none
    | c :: rest =>
      if p c then
        let run := rest.takeWhile cap.body
        if run.isEmpty then none else some (c :: run)
      else none
  | none =>
    let run := s.takeWhile cap.body
    if run.isEmpty then none else some run

/-- `re.search` of `pats` followed by a final capture group: try every start
position left to right, returning the first capture. -/
def searchCapAux (pats : List Pat) (cap : CapSpec) (prev : Option Char) :
    List Char → Option (List Char)
  | [] => matchPatsK pats prev [] (fun _ s2 => capMatch cap s2)
  | c :: rest =>
    (matchPatsK pats prev (c :: rest) (fun _ s2 => capMatch cap s2)) <|>
      searchCapAux pats cap (some c) rest

def searchCap (pats : List Pat) (cap : CapSpec) (s : List Char) :
    Option (List Char) :=
  searchCapAux pats cap none s

/-- `re.search` of `pats` used only as a test (no capture). -/
def searchBoolAux (pats : List Pat) (prev : Option Char) : List Char → Bool
  | [] => (matchPatsK pats prev [] (fun _ _ => some ())).isSome
  | c :: rest =>
    (matchPatsK pats prev (c :: rest) (fun _ _ => some ())).isSome ||
      searchBoolAux pats (some c) rest

def searchBool (pats : List Pat) (s : List Char) : Bool :=
  searchBoolAux pats none s

/-- Does the pattern `\b re.escape(target) \b` (with `re.IGNORECASE`) match
at the very start of `s`, given the previous character? -/
def wordHereCI (target : List Char) (prev : Option Char) (s : List Char) : Bool :=
  boundaryAt prev s.head? && ciPrefix target s &&
    boundaryAt
      (if target.isEmpty then prev else some ((s.take target.length).getLastD ' '))
      (s.drop target.length).head?

/-- The compiled pattern `\b re.escape(target) \b` with `re.IGNORECASE`
(from `FillInBlankGenerator._create_exercise`): find the leftmost match and
return the text before and after it.  The escaped target is a literal, so
the match always spans exactly `target.length` characters. -/
def findWordCI (target : List Char) (prev : Option Char) :
    List Char → Option (List Char × List Char)
  | [] => if wordHereCI target prev [] then some ([], []) else none
  | c :: rest =>
    if wordHereCI target prev (c :: rest) then
      some ([], (c :: rest).drop target.length)
    else
      (findWordCI target (some c) rest).map (fun pr => (c :: pr.1, pr.2))

/-!
## `src/utils/text_processing.py` — `TextProcessor`
-/

/-- The characters stripped by `.strip('\"“”\' ')` in `extract_corrections`. -/
def stripQuoteChars : List Char := ['"', '“', '”', apos, ' ']

/-- The class `[:\s]`. -/
def colonOrSpace (c : Char) : Bool := c = ':' || pyIsSpace c

/-- The trailing capture group `([A-Z][^.!?]+)` shared by all five
correction patterns.  Python `[A-Z]` is exactly ASCII upper case. -/
def capSentence : CapSpec :=
  ⟨some Char.isUpper, fun c => !(c = '.' || c = '!' || c = '?')⟩

/-- The five correction-announcement patterns of `extract_corrections`,
in priority order, minus their shared trailing capture group. -/
def correctionPats : List (List Pat) :=
  [ -- r"[Cc]orrect(?:ion)?[:]?\s+([A-Z][^.!?]+)"
    [.atom (.cls (fun c => c = 'C' || c = 'c')), .atom (.lit "orrect".data),
     .opt [.lit "ion".data], .opt [.lit ":".data], .atom (.plus pyIsSpace)],
    -- r"The correct sentence is[:\s]+([A-Z][^.!?]+)"
    [.atom (.lit "The correct sentence is".data), .atom (.plus colonOrSpace)],
    -- r"(?:It\s+)?should\s+be[:\s]+([A-Z][^.!?]+)"
    [.opt [.lit "It".data, .plus pyIsSpace], .atom (.lit "should".data),
     .atom (.plus pyIsSpace), .atom (.lit "be".data), .atom (.plus colonOrSpace)],
    -- r"[Bb]etter[:\s]+([A-Z][^.!?]+)"
    [.atom (.cls (fun c => c = 'B' || c = 'b')), .atom (.lit "etter".data),
     .atom (.plus colonOrSpace)],
    -- r"[Cc]orrect[:\s]+([A-Z][^.!?]+)"
    [.atom (.cls (fun c => c = 'C' || c = 'c')), .atom (.lit "orrect".data),
     .atom (.plus colonOrSpace)] ]

/-- `for pat in patterns: match = re.search(pat, teacher_line); ... break`:
the capture of the first pattern that matches, if any. -/
def firstPatternCapture (teacherLine : String) : Option String :=
  (correctionPats.foldr
    (fun pats acc => (searchCap pats capSentence teacherLine.data) <|> acc)
    none).map (⟨·⟩)

/-- Does `"Teacher:"` or `"Student:"` start here?  (The lookahead of the
inline-transcript split `re.split(r'(?=(?:Teacher|Student):)', ...)`.) -/
def markerHere (s : List Char) : Bool :=
  "Teacher:".data.isPrefixOf s || "Student:".data.isPrefixOf s

/-- Split before every speaker-marker occurrence (zero-width split).
`cur` is the reversed piece accumulated so far. -/
def splitAtMarkers (cur : List Char) : List Char → List (List Char)
  | [] => [cur.reverse]
  | c :: rest =>
    if markerHere (c :: rest) then cur.reverse :: splitAtMarkers [c] rest
    else splitAtMarkers (c :: cur) rest

/-- The line list of `extract_corrections`: newline split of the stripped
transcript, or the marker-lookahead split (with per-piece stripping and
empty-piece filtering) for inline transcripts. -/
def correctionLines (transcript : String) : List String :=
  if pyIn "\n" transcript then
    pySplitOn "\n" (pyStrip transcript)
  else
    (((splitAtMarkers [] (pyStrip transcript).data).map (String.mk ·)).filter
      (fun l => pyStrip l ≠ "")).map pyStrip

/-- The `for i, line in enumerate(lines)` loop of `extract_corrections`,
carrying the previous line so `lines[i-1]` is available. -/
def extractCorrectionsLoop : Option String → List String → List (String × String)
  | _, [] => []
  | prev, line :: rest =>
    let tail := extractCorrectionsLoop (some line) rest
    if pyIn "Teacher:" line then
      let teacherLine := pyStrip (pyReplace "Teacher:" "" line)
      match firstPatternCapture teacherLine with
      | none => tail
      | some cap =>
        let correct := pyStripChars stripQuoteChars (pyStrip cap)
        match prev with
        | some pl =>
          if pyIn "Student:" pl then
            let incorrect := pyStripChars stripQuoteChars (pyStrip (pyReplace "Student:" "" pl))
            if incorrect ≠ "" ∧ correct ≠ "" then (incorrect, correct) :: tail else tail
          else tail
        | none => tail
    else tail

/-- `TextProcessor.extract_corrections`. -/
def extractCorrections (transcript : String) : List (String × String) :=
  extractCorrectionsLoop none (correctionLines transcript)

/-- `TextProcessor.extract_student_utterances`. -/
def extractStudentUtterances (t : String) : List String :=
  ((pySplitOn "\n" t).filter (pyStartsWith "Student:")).map
    (fun l => pyStrip (pyReplace "Student:" "" l))

/-- `TextProcessor.extract_teacher_utterances`. -/
def extractTeacherUtterances (t : String) : List String :=
  ((pySplitOn "\n" t).filter (pyStartsWith "Teacher:")).map
    (fun l => pyStrip (pyReplace "Teacher:" "" l))

/-- The topic keyword table of `identify_lesson_topic`, in insertion order. -/
def topicKeywords : List (String × List String) :=
  [ ("daily_routines", ["routine", "wake up", "morning", "breakfast", "teeth"]),
    ("hobbies", ["hobbies", "free time", "football", "music"]),
    ("family", ["family", "father", "mother"]),
    ("past_tense", ["yesterday", "did you", "describe yesterday", "what did"]),
    ("travel", ["travel", "city", "hotel", "stayed", "visited"]) ]

/-- Python `max(scores, key=scores.get)`: the first key attaining the
maximal score, in table order. -/
def argmaxAux (best : String × Nat) : List (String × Nat) → String
  | [] => best.1
  | q :: rest => if q.2 > best.2 then argmaxAux q rest else argmaxAux best rest

/-- `TextProcessor.identify_lesson_topic`. -/
def identifyLessonTopic (t : String) : String :=
  match extractTeacherUtterances t with
  | [] => "general"
  | first :: _ =>
    let firstL := pyLower first
    let scores := topicKeywords.map
      (fun p => (p.1, (p.2.filter (fun k => pyIn k firstL)).length))
    if scores.any (fun p => p.2 > 0) then
      match scores with
      | [] => "general"
      | q :: qs => argmaxAux q qs
    else "general"

/-- The ~50-word stop list of `extract_key_vocabulary`. -/
def stopWords : List String :=
  ["i", "you", "he", "she", "it", "we", "they", "am", "is", "are", "was", "were",
   "be", "been", "being", "have", "has", "had", "a", "an", "the", "and", "or",
   "but", "if", "because", "as", "until", "while", "to", "in", "on", "at", "for",
   "with", "by", "from", "of", "about", "my", "your", "his", "her", "its", "our",
   "their", "what", "when", "where", "why", "how", "which", "who", "whom", "this",
   "that", "these", "those", "also", "very", "then", "nice", "good", "try",
   "well", "can", "could", "will", "would", "should", "may", "might", "must"]

/-- `re.findall(r"\b[a-zA-Z]+\b", text)`: maximal alphabetic runs whose
neighbours on both sides are not word characters (a run touching a digit or
underscore has no `\b` inside it, so it yields no token at all).
State machine: `runRev` is the reversed current alphabetic run, `leftOk`
records whether the character before it was a non-word character, and
`prevWord` records the word-ness of the previous character. -/
def findallAlphaGo (runRev : List Char) (leftOk prevWord : Bool) :
    List Char → List (List Char)
  | [] => if !runRev.isEmpty && leftOk then [runRev.reverse] else []
  | c :: rest =>
    if c.isAlpha then
      if runRev.isEmpty then
        findallAlphaGo [c] (!prevWord) (pyIsWordChar c) rest
      else
        findallAlphaGo (c :: runRev) leftOk (pyIsWordChar c) rest
    else
      if !runRev.isEmpty && leftOk && !(pyIsWordChar c) then
        runRev.reverse :: findallAlphaGo [] false (pyIsWordChar c) rest
      else
        findallAlphaGo [] false (pyIsWordChar c) rest

def findallAlphaWords (s : List Char) : List String :=
  (findallAlphaGo [] false false s).map (⟨·⟩)

/-- The four key-phrase detectors of `extract_key_vocabulary` (patterns are
matched against the lowered sentence). -/
def phrasePatterns : List (String × List Pat) :=
  [ ("wake up",
     [.atom .bnd, .atom (.lit "wake".data), .atom (.plus pyIsSpace),
      .atom (.lit "up".data), .atom .bnd]),
    ("brush teeth",
     [.atom .bnd, .atom (.lit "brush".data), .opt [.lit "ing".data],
      .atom (.plus pyIsSpace), .opt [.lit "my".data, .plus pyIsSpace],
      .atom (.lit "teeth".data), .atom .bnd]),
    ("free time",
     [.atom .bnd, .atom (.lit "free".data), .atom (.plus pyIsSpace),
      .atom (.lit "time".data), .atom .bnd]),
    ("last year",
     [.atom .bnd, .atom (.lit "last".data), .atom (.plus pyIsSpace),
      .atom (.lit "year".data), .atom .bnd]) ]

/-- Order-preserving de-duplication (the `seen`/`unique` loop). -/
def dedupePreserveAux (seen : List String) : List String → List String
  | [] => []
  | w :: rest =>
    if seen.contains w then dedupePreserveAux seen rest
    else w :: dedupePreserveAux (w :: seen) rest

/-- `TextProcessor.extract_key_vocabulary`. -/
def extractKeyVocabulary (sentence : String) : List String :=
  let lower := pyLower sentence
  let words := findallAlphaWords lower.data
  let vocab := words.filter (fun w => !stopWords.contains w && w.length > 2)
  let vocab := vocab ++
    (phrasePatterns.filter (fun p => searchBool p.2 lower.data)).map (·.1)
  let normalized := vocab.map
    (fun w => if pyIn " " w then (pySplitWs w).headD "" else w)
  (dedupePreserveAux [] normalized).take 5

/-!
## Data records (fixed-shape Python dicts)
-/

/-- A vocabulary item (`vocabulary_extractor.py`). -/
structure VocabItem where
  word : String
  context : String
  category : String
  priority : String
deriving DecidableEq, Repr

/-- A mistake record (`mistake_extractor.py`). -/
structure Mistake where
  incorrect : String
  correct : String
  error_type : String
  focus_word : String
  severity : String
deriving DecidableEq, Repr

/-- A practice-sentence record (`sentence_extractor.py`), as consumed by the
fill-in-blank generator (key `'sentence'`). -/
structure SentenceRec where
  sentence : String
  source : String
  quality_score : Nat
  difficulty : String
deriving DecidableEq, Repr

/-!
## `src/extractors/mistake_extractor.py` — `MistakeExtractor`
-/

/-- The characters stripped by `.strip('.,!?"')` in the extractor/generators. -/
def punctQuoteChars : List Char := ['.', ',', '!', '?', '"']

/-- `MistakeExtractor._categorize_error`: the ordered decision list of
substring rules, first match wins. -/
def categorizeError (incorrect correct : String) : String :=
  let il := pyLower incorrect
  let cl := pyLower correct
  if (pyIn "yesterday" cl || pyIn "last" cl) &&
      ((pyIn "go" il && pyIn "went" cl) ||
       (pyIn "buy" il && pyIn "bought" cl) ||
       (pyIn "stay" il && pyIn "stayed" cl)) then "grammar_past_tense"
  else if (pyIn "waking" il && pyIn "wake" cl) ||
      (pyIn "cooking" il && pyIn "cooked" cl) then "grammar_verb_tense"
  else if (pyIn "i eats" il && pyIn "i eat" cl) ||
      (pyIn "i likes" il && pyIn "i like" cl) ||
      (pyIn "he eat" il && pyIn "he eats" cl) then "grammar_subject_verb_agreement"
  else if (pyIn "is engineer" il && pyIn "is an engineer" cl) ||
      (pyIn "is teacher" il && pyIn "is a teacher" cl) ||
      (pyIn "to market" il && pyIn "to the market" cl) then "grammar_articles"
  else if (pyIn "egg" il && pyIn "eggs" cl) ||
      (pyIn "vegetable" il && pyIn "vegetables" cl) ||
      (pyIn "day" il && pyIn "days" cl) then "grammar_plural"
  else if (pyIn "listening music" il && pyIn "listening to music" cl) ||
      (pyIn "play football" il && pyIn "playing football" cl) then "grammar_prepositions"
  else if (pyIn "like play" il && pyIn "like playing" cl) ||
      (pyIn "enjoy to" il && pyIn "enjoy" cl) then "grammar_gerund_infinitive"
  else if (pyIn "comfort" il && pyIn "comfortable" cl) ||
      (pyIn "beauty" il && pyIn "beautiful" cl) then "vocabulary_word_form"
  else if pyIn "have five people" il && pyIn "are five people" cl then
    "grammar_sentence_structure"
  else "grammar_general"

/-- First correct-side token whose cleaned form is absent from the
incorrect-side token set (first loop of `_identify_focus_word`). -/
def focusAddedWord (incWords : List String) : List String → Option String
  | [] => none
  | w :: rest =>
    let clean := pyStripChars punctQuoteChars w
    if clean ≠ "" && !incWords.contains clean then some clean
    else focusAddedWord incWords rest

/-- First position where the two token lists differ (second loop of
`_identify_focus_word`). -/
def focusChangedWord : List String → List String → Option String
  | cw :: cRest, iw :: iRest =>
    if cw ≠ iw then some (pyStripChars punctQuoteChars cw)
    else focusChangedWord cRest iRest
  | _, _ => none

/-- `MistakeExtractor._identify_focus_word`. -/
def identifyFocusWord (incorrect correct : String) : String :=
  let incWords := pySplitWs (pyLower incorrect)
  let corWords := pySplitWs (pyLower correct)
  match focusAddedWord incWords corWords with
  | some w => w
  | none =>
    match focusChangedWord corWords incWords with
    | some w => w
    | none =>
      match corWords with
      | [] => ""
      | w :: _ => pyStripChars punctQuoteChars w

/-- `MistakeExtractor.extract`: one mistake record per correction pair (the
`if incorrect and correct` guard re-checks non-emptiness). -/
def mistakeExtract (transcript : String) : List Mistake :=
  (extractCorrections transcript).filterMap fun p =>
    if p.1 ≠ "" ∧ p.2 ≠ "" then
      let et := categorizeError p.1 p.2
      some { incorrect := p.1, correct := p.2, error_type := et,
             focus_word := identifyFocusWord p.1 p.2,
             severity := if pyIn "grammar" et then "high" else "medium" }
    else none

/-!
## `src/extractors/vocabulary_extractor.py` — `VocabularyExtractor`
-/

/-- Phase 1 of `VocabularyExtractor.extract`: vocabulary from correction
pairs, with phrasal-verb normalization and seen-set de-duplication. -/
def vocabPhase1 (acc : List VocabItem) (seen : List String) :
    List (String × String) → List VocabItem × List String
  | [] => (acc, seen)
  | (_, correct) :: rest =>
    let step := (extractKeyVocabulary correct).foldl
      (fun (st : List VocabItem × List String) word =>
        let normalized := if pyIn " " word then (pySplitWs word).headD "" else word
        if !st.2.contains (pyLower normalized) then
          (st.1 ++ [{ word := normalized, context := correct,
                      category := "corrected_usage", priority := "high" }],
           st.2 ++ [pyLower normalized])
        else st)
      (acc, seen)
    vocabPhase1 step.1 step.2 rest

/-- The explicit-vocabulary announcement pattern
`r'(?:important|key|vocabulary|words?):\s*([^.]+)'` with `re.IGNORECASE`
(the `words?` branch is expanded into `words`-then-`word`, preserving the
greedy backtracking order). -/
def explicitVocabPats : List Pat :=
  [.alts [[.litCI "important".data], [.litCI "key".data],
          [.litCI "vocabulary".data], [.litCI "words".data], [.litCI "word".data]],
   .atom (.lit ":".data), .atom (.star pyIsSpace)]

def explicitVocabCap : CapSpec := ⟨none, fun c => c ≠ '.'⟩

/-- `re.split(r',|\band\b', words_str)`: split on commas and on the word
`and` (with word boundaries), leftmost-first. `prev` is the previous
character, `cur` the reversed pending piece. -/
def splitCommaAndF (prev : Option Char) (cur : List Char) :
    Nat → List Char → List (List Char)
  | _, [] => [cur.reverse]
  | 0, s => [(cur.reverse ++ s)]
  | fuel + 1, c :: rest =>
    if c = ',' then
      cur.reverse :: splitCommaAndF (some ',') [] fuel rest
    else if boundaryAt prev (some c) && "and".data.isPrefixOf (c :: rest) &&
        boundaryAt (some 'd') ((c :: rest).drop 3).head? then
      cur.reverse :: splitCommaAndF (some 'd') [] fuel (rest.drop 2)
    else
      splitCommaAndF (some c) (c :: cur) fuel rest

def splitCommaAnd (s : String) : List String :=
  (splitCommaAndF none [] s.data.length s.data).map (⟨·⟩)

/-- Phase 2 of `VocabularyExtractor.extract`: explicit teacher-announced
vocabulary.  The pattern carries `re.IGNORECASE`, so its literals are
matched case-insensitively against the original line and the capture keeps
the original characters. -/
def vocabPhase2 (acc : List VocabItem) (seen : List String) :
    List String → List VocabItem × List String
  | [] => (acc, seen)
  | line :: rest =>
    let step :=
      match searchCap explicitVocabPats explicitVocabCap line.data with
      | none => (acc, seen)
      | some wordsStr =>
        (splitCommaAnd ⟨wordsStr⟩).foldl
          (fun (st : List VocabItem × List String) word0 =>
            let word := pyStrip word0
            if word ≠ "" && !st.2.contains (pyLower word) && word.length > 2 then
              (st.1 ++ [({ word := word, context := line,
                           category := "explicit_vocabulary",
                           priority := "high" } : VocabItem)],
               st.2 ++ [pyLower word])
            else st)
          (acc, seen)
    vocabPhase2 step.1 step.2 rest

/-- The topic→word table of `VocabularyExtractor.extract`. -/
def topicVocab : List (String × List String) :=
  [ ("daily_routines", ["wake", "breakfast", "brush", "morning"]),
    ("hobbies", ["football", "music", "books", "time"]),
    ("family", ["father", "mother", "engineer", "teacher"]),
    ("past_tense", ["yesterday", "bought", "went", "cooked"]),
    ("travel", ["hotel", "comfortable", "stayed", "Delhi"]) ]

/-- Phase 3 of `VocabularyExtractor.extract`: topic vocabulary with a
context line found among teacher then student utterances. -/
def vocabPhase3 (contextLines : List String) (acc : List VocabItem)
    (seen : List String) (topic : String) : List String → List VocabItem × List String
  | [] => (acc, seen)
  | word :: rest =>
    let step :=
      if !seen.contains (pyLower word) then
        match contextLines.find? (fun l => pyIn (pyLower word) (pyLower l)) with
        | some context =>
          (acc ++ [{ word := word, context := context,
                     category := "topic_" ++ topic, priority := "medium" }],
           seen ++ [pyLower word])
        | none => (acc, seen)
      else (acc, seen)
    vocabPhase3 contextLines step.1 step.2 topic rest

/-- `VocabularyExtractor.extract`. -/
def vocabExtract (transcript : String) : List VocabItem :=
  let st1 := vocabPhase1 [] [] (extractCorrections transcript)
  let st2 := vocabPhase2 st1.1 st1.2 (extractTeacherUtterances transcript)
  let topic := identifyLessonTopic transcript
  let contextLines :=
    extractTeacherUtterances transcript ++ extractStudentUtterances transcript
  match topicVocab.find? (fun p => p.1 = topic) with
  | some p => (vocabPhase3 contextLines st2.1 st2.2 topic p.2).1
  | none => st2.1

/-!
## `src/utils/gemini_helper.py` — `GeminiHelper` distractor synthesis
-/

/-- Python `s.endswith(t)`. -/
def pyEndsWith (t s : String) : Bool := t.data.isSuffixOf s.data

/-- Python slicing `s[:-n]`. -/
def pyDropRight (n : Nat) (s : String) : String :=
  ⟨s.data.take (s.data.length - n)⟩

/-- The apostrophe as a one-character string (for the literal word lists of
the source that contain contractions). -/
def aposS : String := ⟨[apos]⟩

/-- The curated distractor pool of `_fallback_distractors` (all entries
carry exactly three distractors). -/
def distractorPool : List (String × List String) :=
  [ ("wake", ["wakes", "waking", "woken"]),
    ("wake up", ["wakes up", "waking up", "woke up"]),
    ("eat", ["eats", "eating", "eaten"]),
    ("brush", ["brushes", "brushing", "brushed"]),
    ("read", ["reads", "reading", "readed"]),
    ("play", ["plays", "playing", "played"]),
    ("like", ["likes", "liking", "liked"]),
    ("went", ["go", "goes", "gone"]),
    ("bought", ["buy", "buys", "buyed"]),
    ("stayed", ["stay", "stays", "staying"]),
    ("cooked", ["cook", "cooks", "cooking"]),
    ("playing", ["play", "plays", "played"]),
    ("listening", ["listen", "listens", "listened"]),
    ("reading", ["read", "reads", "readed"]),
    ("waking", ["wake", "wakes", "woken"]),
    ("cooking", ["cook", "cooks", "cooked"]),
    ("eggs", ["egg", "egges", "an egg"]),
    ("teeth", ["tooth", "teeths", "tooths"]),
    ("vegetables", ["vegetable", "vegitable", "vegitables"]),
    ("days", ["day", "daies", "daily"]),
    ("people", ["person", "peoples", "persons"]),
    ("books", ["book", "bookes", "booking"]),
    ("fruits", ["fruit", "fruites", "fruity"]),
    ("a", ["an", "the", "some"]),
    ("an", ["a", "the", "any"]),
    ("the", ["a", "an", "this"]),
    ("to", ["at", "in", "for"]),
    ("at", ["in", "on", "to"]),
    ("in", ["at", "on", "into"]),
    ("for", ["to", "at", "since"]),
    ("with", ["by", "from", "along"]),
    ("comfortable", ["comfort", "comfortably", "comforted"]),
    ("sometimes", ["sometime", "some time", "always"]),
    ("yesterday", ["tomorrow", "today", "last day"]),
    ("morning", ["evening", "afternoon", "mornings"]),
    ("five", ["four", "fives", "fifth"]),
    ("three", ["two", "third", "threes"]) ]

/-- The semantic groups of `_fallback_distractors`, in insertion order. -/
def semanticGroups : List (String × List String) :=
  [ ("time", ["always", "never", "often", "sometimes", "usually"]),
    ("quantity", ["many", "few", "some", "all", "most"]),
    ("quality", ["good", "bad", "nice", "great", "fine"]),
    ("action", ["do", "make", "take", "get", "have"]) ]

/-- The final-fallback confusable list of `_fallback_distractors`. -/
def commonConfusions : List String :=
  ["then", "than", "there", "their", "were", "where",
   "your", "you" ++ aposS ++ "re", "its", "it" ++ aposS ++ "s", "to", "too"]

/-- `GeminiHelper._fallback_distractors`.  `shuffle` stands for the
process-global `random.shuffle` (the pool branch shuffles its result). -/
def geminiFallbackDistractors (shuffle : List String → List String)
    (correct_word : String) (count : Nat) : List String :=
  let wl := pyLower correct_word
  match distractorPool.find? (fun p => p.1 = wl) with
  | some p => shuffle (p.2.take count)
  | none =>
    let generated : List String :=
      if pyEndsWith "ed" wl then
        let base := if !pyEndsWith "ied" wl then pyDropRight 2 wl
                    else pyDropRight 3 wl ++ "y"
        [base, base ++ "s", base ++ "ing"]
      else if pyEndsWith "ing" wl then
        let base := if !pyEndsWith "ying" wl then pyDropRight 3 wl
                    else pyDropRight 4 wl ++ "y"
        [base, base ++ "s", base ++ "ed"]
      else if pyEndsWith "s" wl && wl.length > 3 then
        let base := if !pyEndsWith "es" wl then pyDropRight 1 wl
                    else pyDropRight 2 wl
        [base, base ++ "ing", base ++ "ed"]
      else if pyEndsWith "ly" wl then
        let base := pyDropRight 2 wl
        [base, base ++ "ful", base ++ "ness"]
      else []
    let generated :=
      if generated.isEmpty then
        match semanticGroups.find? (fun g => g.2.contains wl) with
        | some g => (g.2.filter (fun w => w ≠ wl)).take count
        | none => []
      else generated
    let generated :=
      if generated.isEmpty then
        (commonConfusions.filter (fun w => w ≠ wl)).take count
      else generated
    generated.take count

/-- `GeminiHelper.generate_distractors`: the public entry point.  The
`enabled` flag and `context` argument mirror the instance state and the
Python signature; the source body ignores both and always delegates to the
rule-based fallback. -/
def geminiGenerateDistractors (shuffle : List String → List String)
    (enabled : Bool) (correct_word : String) (context : String)
    (count : Nat) : List String :=
  geminiFallbackDistractors shuffle correct_word count

/-!
## `src/generators/fill_in_blank.py` — `FillInBlankGenerator`
-/

/-- One fill-in-blank exercise record.  `correct_answer` is the Python
one-character string `chr(65 + index)`, modelled as a `Char`. -/
structure FIBExercise where
  exercise_id : String
  sentence : String
  option_a : String
  option_b : String
  option_c : String
  option_d : String
  correct_answer : Char
  correct_word : String
  difficulty : String
  context_type : String
deriving DecidableEq, Repr

/-- The blank marker of the fill-in-blank generator (five underscores). -/
def marker5 : List Char := "_____".data

/-- `FillInBlankGenerator._create_exercise`. -/
def fibCreateExercise (shuffle : List String → List String) (enabled : Bool)
    (sentence0 target0 context : String) : Option FIBExercise :=
  let sentence := pyStripChars ['"'] (pyStrip sentence0)
  let target := pyStripChars punctQuoteChars target0
  match findWordCI target.data none sentence.data with
  | none => none
  | some pr =>
    let blanked : String := ⟨pr.1 ++ marker5 ++ pr.2⟩
    let distractors := geminiGenerateDistractors shuffle enabled target sentence 3
    let options := shuffle ([target] ++ distractors)
    let options := options ++ List.replicate (4 - options.length) ""
    some { exercise_id := "FB_" ++ toString blanked.length,
           sentence := blanked,
           option_a := options.getD 0 "", option_b := options.getD 1 "",
           option_c := options.getD 2 "", option_d := options.getD 3 "",
           correct_answer := Char.ofNat (65 + options.indexOf target),
           correct_word := target,
           difficulty := "beginner", context_type := context }

/-- First loop of `FillInBlankGenerator.generate`: exercises from the
correction mistakes. -/
def fibLoop1 (shuffle : List String → List String) (enabled : Bool)
    (maxEx : Nat) (acc : List FIBExercise) (used : List String) :
    List Mistake → List FIBExercise × List String
  | [] => (acc, used)
  | m :: ms =>
    if acc.length ≥ maxEx then (acc, used)
    else
      let sentence := m.correct
      let target := m.focus_word
      if !used.contains sentence && target ≠ "" then
        match fibCreateExercise shuffle enabled sentence target "correction" with
        | some ex => fibLoop1 shuffle enabled maxEx (acc ++ [ex]) (used ++ [sentence]) ms
        | none => fibLoop1 shuffle enabled maxEx acc used ms
      else fibLoop1 shuffle enabled maxEx acc used ms

/-- Second loop of `FillInBlankGenerator.generate`: exercises from practice
sentences; `choose` stands for `random.choice`. -/
def fibLoop2 (shuffle : List String → List String) (enabled : Bool)
    (choose : List String → String) (maxEx : Nat) (acc : List FIBExercise)
    (used : List String) : List SentenceRec → List FIBExercise × List String
  | [] => (acc, used)
  | sd :: rest =>
    if acc.length ≥ maxEx then (acc, used)
    else
      let sentence := sd.sentence
      if !used.contains sentence then
        let words := (pySplitWs sentence).filter
          (fun w => w.length > 3 && w.data.all Char.isAlpha)
        if words ≠ [] then
          let target := choose (words.take 3)
          match fibCreateExercise shuffle enabled sentence target "practice" with
          | some ex =>
            fibLoop2 shuffle enabled choose maxEx (acc ++ [ex]) (used ++ [sentence]) rest
          | none => fibLoop2 shuffle enabled choose maxEx acc used rest
        else fibLoop2 shuffle enabled choose maxEx acc used rest
      else fibLoop2 shuffle enabled choose maxEx acc used rest

/-- `FillInBlankGenerator.generate` (the `vocabulary` argument is accepted
and unused, as in the source). -/
def fibGenerate (shuffle : List String → List String) (enabled : Bool)
    (choose : List String → String) (maxEx : Nat)
    (vocabulary : List VocabItem) (mistakes : List Mistake)
    (sentences : List SentenceRec) : List FIBExercise :=
  let st1 := fibLoop1 shuffle enabled maxEx [] [] (mistakes.take maxEx)
  (fibLoop2 shuffle enabled choose maxEx st1.1 st1.2 sentences).1

/-!
## `src/generators/spelling.py` — `SpellingGenerator`
-/

structure SpellingItem where
  word : String
  sample_sentence : String
  difficulty : String
  source : String
deriving DecidableEq, Repr

/-- `re.split(r'[.!?]+', context)`: split on runs of sentence punctuation,
keeping boundary empties. -/
def splitPunctRunsAux (cur : List Char) (lastPunct : Bool) :
    List Char → List (List Char)
  | [] => [cur.reverse]
  | c :: rest =>
    if c = '.' || c = '!' || c = '?' then
      if lastPunct then splitPunctRunsAux cur lastPunct rest
      else cur.reverse :: splitPunctRunsAux [] true rest
    else splitPunctRunsAux (c :: cur) false rest

def splitPunctRuns (s : String) : List String :=
  (splitPunctRunsAux [] false s.data).map (⟨·⟩)

/-- `_extract_short_example` (shared shape of `spelling.py` and
`flashcard.py`). -/
def extractShortExample (word context : String) : String :=
  match (splitPunctRuns context).find?
      (fun sent => pyIn (pyLower word) (pyLower sent) && (pyStrip sent).length > 10) with
  | some sent =>
    let sent := pyStrip sent
    if sent.length > 150 then pyTake 147 sent ++ "..." else sent
  | none =>
    if context.length > 150 then pyStrip (pyTake 147 context) ++ "..."
    else pyStrip context

/-- Priority 1 of `SpellingGenerator.generate`: words from student
mistakes (this loop has no max-count check in the source). -/
def spellingLoop1 (acc : List SpellingItem) (seen : List String) :
    List Mistake → List SpellingItem × List String
  | [] => (acc, seen)
  | m :: rest =>
    let w := m.focus_word
    if w ≠ "" && w.length > 2 && !seen.contains (pyLower w) then
      spellingLoop1
        (acc ++ [{ word := w, sample_sentence := extractShortExample w m.correct,
                   difficulty := "medium", source := "student_mistake" }])
        (seen ++ [pyLower w]) rest
    else spellingLoop1 acc seen rest

/-- The challenging-vocabulary set of `SpellingGenerator.generate`. -/
def challengingWords : List String :=
  ["comfortable", "vegetables", "breakfast", "yesterday", "engineer",
   "sometimes", "listening", "bought", "stayed"]

/-- Priority 2 of `SpellingGenerator.generate`. -/
def spellingLoop2 (maxW : Nat) (acc : List SpellingItem) (seen : List String) :
    List VocabItem → List SpellingItem × List String
  | [] => (acc, seen)
  | v :: rest =>
    if acc.length ≥ maxW then (acc, seen)
    else
      let w := v.word
      if challengingWords.contains (pyLower w) && !seen.contains (pyLower w) then
        spellingLoop2 maxW
          (acc ++ [{ word := w, sample_sentence := extractShortExample w v.context,
                     difficulty := "medium", source := "vocabulary" }])
          (seen ++ [pyLower w]) rest
      else spellingLoop2 maxW acc seen rest

/-- Priority 3 of `SpellingGenerator.generate`. -/
def spellingLoop3 (maxW : Nat) (acc : List SpellingItem) (seen : List String) :
    List VocabItem → List SpellingItem × List String
  | [] => (acc, seen)
  | v :: rest =>
    if acc.length ≥ maxW then (acc, seen)
    else
      let w := v.word
      if w.length > 4 && !seen.contains (pyLower w) then
        spellingLoop3 maxW
          (acc ++ [{ word := w, sample_sentence := extractShortExample w v.context,
                     difficulty := "easy", source := "vocabulary" }])
          (seen ++ [pyLower w]) rest
      else spellingLoop3 maxW acc seen rest

/-- `SpellingGenerator.generate` (`max_words` is a parameter because the
orchestrator reassigns it). -/
def spellingGenerate (maxW : Nat) (vocabulary : List VocabItem)
    (mistakes : List Mistake) : List SpellingItem :=
  let st1 := spellingLoop1 [] [] mistakes
  let st2 := spellingLoop2 maxW st1.1 st1.2 vocabulary
  let st3 := spellingLoop3 maxW st2.1 st2.2 vocabulary
  st3.1.take maxW

/-!
## `src/generators/advanced_cloze_generator.py` — `AdvancedClozeGenerator`
-/

/-- Source sentences as consumed by the cloze generator (`sent.get('text', '')`:
only the `text` key is read). -/
structure ACSentence where
  text : String
deriving DecidableEq, Repr

structure ClozeItem where
  id : String
  topic_id : String
  lesson_id : String
  difficulty : String
  text_parts : List String
  options : List (List String)
  correct : List String
  explanation : String
deriving DecidableEq, Repr

/-- `re.sub(r'[^\w]', '', word).lower()`. -/
def cleanWord (w : String) : String :=
  pyLower ⟨w.data.filter pyIsWordChar⟩

/-- `' '.join(ws)`. -/
def pyJoinSpace : List String → String
  | [] => ""
  | [w] => w
  | w :: rest => w ++ " " ++ pyJoinSpace rest

/-- `sep.join(ws)`. -/
def pyJoin (sep : String) : List String → String
  | [] => ""
  | [w] => w
  | w :: rest => w ++ sep ++ pyJoin sep rest

/-- The skip-word set of `AdvancedClozeGenerator`. -/
def acSkipWords : List String :=
  ["the", "a", "an", "is", "are", "was", "were", "be", "been",
   "have", "has", "had", "do", "does", "did", "will", "would",
   "can", "could", "should", "may", "might", "must", "i", "you",
   "he", "she", "it", "we", "they", "this", "that", "these", "those"]

/-- `AdvancedClozeGenerator._identify_key_word_indices`. -/
def acKeyIndices (words : List String) (vocabWords : List String) : List Nat :=
  words.enum.filterMap fun p =>
    let clean := cleanWord p.2
    if acSkipWords.contains clean || clean.length < 4 then none
    else if vocabWords.contains clean then some p.1
    else if clean.length ≥ 6 && !(p.2.data.headD ' ').isUpper then some p.1
    else none

/-- Insertion into the insertion-ordered model of the Python `set` of
distractors.  (Python set iteration order is unspecified; every property
verified below is independent of the order, so insertion order is fixed
here.) -/
def acInsert (ds : List String) (x : String) : List String :=
  if ds.contains x then ds else ds ++ [x]

def acConfusables : List (String × List String) :=
  [ ("affect", ["effect", "infect", "defect"]),
    ("accept", ["except", "expect", "adapt"]),
    ("advice", ["advise", "device", "devise"]),
    ("complement", ["compliment", "implement", "supplement"]),
    ("principal", ["principle", "practical", "essential"]) ]

/-- The generic pool of the `while len(distractors) < 3` loop. -/
def acGenericList : List String :=
  ["complete", "consider", "continue", "develop", "establish",
   "maintain", "provide", "require", "support", "understand"]

/-- One execution of the inner `for g in generic` loop (with its early
`break` once three distractors exist). -/
def acAddGenerics (cw : String) (ds : List String) : List String → List String
  | [] => ds
  | g :: rest =>
    if g ≠ cw && g.length ≥ cw.length - 2 then
      let ds2 := acInsert ds g
      if ds2.length ≥ 3 then ds2 else acAddGenerics cw ds2 rest
    else acAddGenerics cw ds rest

/-- The `while len(distractors) < 3` loop of
`AdvancedClozeGenerator._generate_distractors`, with explicit fuel:
`none` means the loop has not exited within `fuel` iterations (the source
loop never terminates once a full pass adds nothing while the set still has
fewer than three elements). -/
def acGenericWhile (cw : String) : Nat → List String → Option (List String)
  | 0, _ => none
  | fuel + 1, ds =>
    if ds.length ≥ 3 then some ds
    else acGenericWhile cw fuel (acAddGenerics cw ds acGenericList)

/-- The distractor set built before the `while` loop of
`AdvancedClozeGenerator._generate_distractors`: suffix-pattern transforms
(for cleaned words of length ≥ 6) and curated confusables. -/
def acInitDistractors (cw : String) : List String :=
  let ds : List String := []
  let ds :=
    if cw.length ≥ 6 then
      if pyEndsWith "ing" cw then
        acInsert (acInsert ds (pyDropRight 3 cw ++ "ed")) (pyDropRight 3 cw ++ "ion")
      else if pyEndsWith "ed" cw then acInsert ds (pyDropRight 2 cw ++ "ing")
      else if pyEndsWith "tion" cw then acInsert ds (pyDropRight 4 cw ++ "te")
      else ds
    else ds
  match acConfusables.find? (fun p => p.1 = cw) with
  | some p => (p.2.take 2).foldl acInsert ds
  | none => ds

/-- `AdvancedClozeGenerator._generate_distractors`: returns the shuffled
four-option list (correct word plus three distractors), or `none` when the
while loop diverges.  The `context` argument is accepted and unused, as in
the source. -/
def acGenerateDistractors (shuffle : List String → List String) (fuel : Nat)
    (correct_word context : String) : Option (List String) :=
  let cw := cleanWord correct_word
  match acGenericWhile cw fuel (acInitDistractors cw) with
  | none => none
  | some ds => some (shuffle ([cw] ++ ds.take 3))

/-- Insertion sort (for `sorted(key_indices[:3])`). -/
def insertSorted (n : Nat) : List Nat → List Nat
  | [] => [n]
  | m :: rest => if n ≤ m then n :: m :: rest else m :: insertSorted n rest

def sortNats : List Nat → List Nat
  | [] => []
  | n :: rest => insertSorted n (sortNats rest)

/-- The `for idx in key_indices` loop of `_create_multi_blank_cloze`:
builds `text_parts` and `correct`, returning also the final `current_pos`. -/
def acPartsLoop (words : List String) (pos : Nat)
    (tps correct : List String) : List Nat → List String × List String × Nat
  | [] => (tps, correct, pos)
  | idx :: rest =>
    let before := pyJoinSpace ((words.drop pos).take (idx - pos))
    acPartsLoop words (idx + 1)
      (tps ++ [if before ≠ "" then before ++ " " else ""])
      (correct ++ [words.getD idx ""]) rest

/-- Option lists for every blank (the `for correct_word in correct` loop);
`none` propagates a diverging distractor loop. -/
def acOptionsAll (shuffle : List String → List String) (fuel : Nat)
    (sentence : String) : List String → Option (List (List String))
  | [] => some []
  | cw :: rest =>
    match acGenerateDistractors shuffle fuel cw sentence with
    | none => none
    | some opts => (acOptionsAll shuffle fuel sentence rest).map (opts :: ·)

/-- `AdvancedClozeGenerator._generate_explanation`. -/
def acExplanation (correct : List String) : String :=
  match correct with
  | [c] => "The correct word is " ++ aposS ++ c ++ aposS ++ "."
  | [c1, c2] =>
    "The correct words are " ++ aposS ++ c1 ++ aposS ++ " and " ++
      aposS ++ c2 ++ aposS ++ "."
  | other =>
    -- words_str = "', '".join(correct_words[:-1]) + f"', and '{last}'"
    "The correct words are " ++ aposS ++
      pyJoin (aposS ++ ", " ++ aposS) other.dropLast ++
      aposS ++ ", and " ++ aposS ++ other.getLastD "" ++ aposS ++ aposS ++ "."

/-- The result quadruple of the two cloze creators. -/
abbrev ClozeParts := List String × List (List String) × List String × String

/-- `AdvancedClozeGenerator._create_multi_blank_cloze`.
`none` = a distractor loop diverged; `some none` = Python `None`. -/
def acCreateMultiBlank (shuffle : List String → List String) (fuel : Nat)
    (sentence : String) (vocabulary : List VocabItem) :
    Option (Option ClozeParts) :=
  let words := pySplitWs sentence
  let keyIdx := acKeyIndices words (vocabulary.map (fun v => pyLower v.word))
  if keyIdx.length < 2 then some none
  else
    let keyIdx := sortNats (keyIdx.take 3)
    let st := acPartsLoop words 0 [] [] keyIdx
    let remaining := pyJoinSpace (words.drop st.2.2)
    let tps := st.1 ++ [if remaining ≠ "" then " " ++ remaining else ""]
    let correct := st.2.1
    match acOptionsAll shuffle fuel sentence correct with
    | none => none
    | some options => some (some (tps, options, correct, acExplanation correct))

/-- The `for i, word in enumerate(words)` loop of
`_create_single_blank_cloze`. -/
def acSingleLoop (shuffle : List String → List String) (fuel : Nat)
    (sentence : String) (words : List String) (i : Nat) :
    List String → Option (Option ClozeParts)
  | [] => some none
  | w :: rest =>
    let clean := cleanWord w
    if clean.length > 4 && !acSkipWords.contains clean &&
        !(w.data.headD ' ').isUpper then
      match acGenerateDistractors shuffle fuel clean sentence with
      | none => none
      | some opts =>
        some (some ([pyJoinSpace (words.take i) ++ " ",
                     " " ++ pyJoinSpace (words.drop (i + 1))],
                    [opts], [clean],
                    "The correct word is " ++ aposS ++ clean ++ aposS ++ "."))
    else acSingleLoop shuffle fuel sentence words (i + 1) rest

/-- `AdvancedClozeGenerator._create_single_blank_cloze`. -/
def acCreateSingleBlank (shuffle : List String → List String) (fuel : Nat)
    (sentence : String) : Option (Option ClozeParts) :=
  let words := pySplitWs sentence
  acSingleLoop shuffle fuel sentence words 0 words

/-- `AdvancedClozeGenerator._filter_quality_sentences`. -/
def acFilterQuality (sentences : List ACSentence) : List ACSentence :=
  sentences.filter fun sent =>
    let wc := (pySplitWs sent.text).length
    (8 ≤ wc && wc ≤ 30) &&
      ((["should", "must", "need to", "have to"].any
          (fun p => pyIn p (pyLower sent.text))) || wc ≥ 12)

/-- `AdvancedClozeGenerator._assess_difficulty`.  The Python float average
`sum/len >= k` is expressed exactly as `sum ≥ k * len` (all callers pass a
non-empty `correct_words`; Python would raise on an empty one). -/
def acAssessDifficulty (sentence : String) (correctWords : List String) : String :=
  let wc := (pySplitWs sentence).length
  let sumLen := (correctWords.map String.length).sum
  let n := correctWords.length
  if correctWords.length ≥ 3 || sumLen ≥ 8 * n then "hard"
  else if wc ≥ 15 || sumLen ≥ 6 * n then "medium"
  else "easy"

/-- The main loop of `AdvancedClozeGenerator.generate`. -/
def acGenLoop1 (shuffle : List String → List String) (fuel maxItems : Nat)
    (vocabulary : List VocabItem) (topic lesson : String)
    (items : List ClozeItem) (seen : List String) :
    List ACSentence → Option (List ClozeItem × List String)
  | [] => some (items, seen)
  | sd :: rest =>
    if items.length ≥ maxItems then some (items, seen)
    else
      let sentence := sd.text
      if sentence ≠ "" && !seen.contains (pyLower sentence) then
        match acCreateMultiBlank shuffle fuel sentence vocabulary with
        | none => none
        | some none => acGenLoop1 shuffle fuel maxItems vocabulary topic lesson items seen rest
        | some (some r) =>
          let item : ClozeItem :=
            { id := "ac_" ++ lesson ++ "_" ++ toString (items.length + 1),
              topic_id := topic, lesson_id := lesson,
              difficulty := acAssessDifficulty sentence r.2.2.1,
              text_parts := r.1, options := r.2.1, correct := r.2.2.1,
              explanation := r.2.2.2 }
          acGenLoop1 shuffle fuel maxItems vocabulary topic lesson
            (items ++ [item]) (seen ++ [pyLower sentence]) rest
      else acGenLoop1 shuffle fuel maxItems vocabulary topic lesson items seen rest

/-- The relaxed single-blank loop of `AdvancedClozeGenerator.generate`. -/
def acGenLoop2 (shuffle : List String → List String) (fuel minItems : Nat)
    (topic lesson : String) (items : List ClozeItem) (seen : List String) :
    List ACSentence → Option (List ClozeItem × List String)
  | [] => some (items, seen)
  | sd :: rest =>
    if items.length ≥ minItems then some (items, seen)
    else
      let sentence := sd.text
      if !seen.contains (pyLower sentence) then
        match acCreateSingleBlank shuffle fuel sentence with
        | none => none
        | some none => acGenLoop2 shuffle fuel minItems topic lesson items seen rest
        | some (some r) =>
          let item : ClozeItem :=
            { id := "ac_" ++ lesson ++ "_" ++ toString (items.length + 1),
              topic_id := topic, lesson_id := lesson, difficulty := "easy",
              text_parts := r.1, options := r.2.1, correct := r.2.2.1,
              explanation := r.2.2.2 }
          acGenLoop2 shuffle fuel minItems topic lesson
            (items ++ [item]) (seen ++ [pyLower sentence]) rest
      else acGenLoop2 shuffle fuel minItems topic lesson items seen rest

/-- `AdvancedClozeGenerator.generate`: `none` means some distractor loop
diverged (the Python call would hang). -/
def acGenerate (shuffle : List String → List String) (fuel : Nat)
    (minItems maxItems : Nat) (sentences : List ACSentence)
    (vocabulary : List VocabItem) (topic lesson : String) :
    Option (List ClozeItem) :=
  let quality := acFilterQuality sentences
  match acGenLoop1 shuffle fuel maxItems vocabulary topic lesson [] [] quality with
  | none => none
  | some st =>
    if st.1.length < minItems ∧ quality.length > 0 then
      (acGenLoop2 shuffle fuel minItems topic lesson st.1 st.2 (quality.take 5)).map (·.1)
    else some st.1

/-!
## `src/generators/grammar_question_generator.py` — `GrammarQuestionGenerator`
(the mistake-derived question path, `_create_question_from_mistake`)
-/

/-- First differing word of the zipped token lists (case-insensitive
comparison, original-case result): `(correct_word, incorrect_word)`. -/
def gqFindDiffWord : List String → List String → Option (String × String)
  | iw :: iRest, cw :: cRest =>
    if pyLower iw ≠ pyLower cw then some (cw, iw)
    else gqFindDiffWord iRest cRest
  | _, _ => none

/-- The `correct_word` / `incorrect_word` extraction of
`_generate_options_from_mistake`. -/
def gqCorrectWord (incorrect correct : String) : String × Option String :=
  let incWords := pySplitWs incorrect
  let corWords := pySplitWs correct
  match gqFindDiffWord incWords corWords with
  | some p => (p.1, some p.2)
  | none =>
    match corWords.find?
        (fun cw => !(incWords.map pyLower).contains (pyLower cw)) with
    | some cw => (cw, none)
    | none => (corWords.headD "correct", none)

def gqIrregular : List (String × List String) :=
  [ ("went", ["go", "goes", "going"]),
    ("bought", ["buy", "buys", "buying"]),
    ("ate", ["eat", "eats", "eating"]),
    ("wrote", ["write", "writes", "writing"]),
    ("spoke", ["speak", "speaks", "speaking"]) ]

/-- `GrammarQuestionGenerator._generate_distractors_by_type`. -/
def gqDistractorsByType (correct : String) (incorrect : Option String)
    (error_type : String) : List String :=
  let cc := cleanWord correct
  let ds : List String :=
    if pyIn "past_tense" error_type then
      if pyEndsWith "ed" cc then
        let base := pyDropRight 2 cc
        [base, base ++ "ing", base ++ "s"]
      else
        match gqIrregular.find? (fun p => p.1 = cc) with
        | some p => p.2
        | none => [cc ++ "s", cc ++ "ing", "have " ++ cc]
    else if pyIn "verb_tense" error_type then
      if pyEndsWith "ing" cc then
        let base := pyDropRight 3 cc
        [base, base ++ "ed", base ++ "s"]
      else if pyEndsWith "ed" cc then
        let base := pyDropRight 2 cc
        [base, base ++ "ing", base ++ "s"]
      else [cc ++ "ed", cc ++ "ing", cc ++ "s"]
    else if pyIn "subject_verb" error_type || pyIn "agreement" error_type then
      if (["is", "are", "was", "were"] : List String).contains cc then
        (["is", "are", "was", "were"] : List String).erase cc
      else if pyEndsWith "s" cc then
        let base := pyDropRight 1 cc
        [base, base ++ "es", base ++ "ed"]
      else [cc ++ "s", cc ++ "es", cc ++ "ed"]
    else if pyIn "article" error_type then
      let arts : List String := ["a", "an", "the", ""]
      if arts.contains cc then arts.erase cc else arts
    else if pyIn "preposition" error_type then
      ((["in", "on", "at", "to", "for", "with", "by", "from"] : List String).filter
        (fun p => p ≠ cc)).take 3
    else
      (match incorrect with | some iw => [cleanWord iw] | none => []) ++
        [cc ++ "s", cc ++ "ed", cc ++ "ing"]
  (dedupePreserveAux [] ds).take 3

/-- First verb-like word (fallback blank of `_create_prompt_with_blank`). -/
def gqVerbIdx (words : List String) : Option Nat :=
  (words.enum.find? fun p =>
    let clean := cleanWord p.2
    pyEndsWith "ed" clean || pyEndsWith "ing" clean ||
      (["is", "are", "was", "were", "have", "has", "had"] : List String).contains clean).map (·.1)

/-- `GrammarQuestionGenerator._create_prompt_with_blank`: blank the focus
word (substring match, case-insensitive) inside the **correct** sentence,
falling back to a verb-like word. -/
def gqPromptBlank (correct_sentence focus_word : String) : Option String :=
  let words := pySplitWs correct_sentence
  let focusIdx : Option Nat :=
    if focus_word ≠ "" then
      (words.enum.find? (fun p => pyIn (pyLower focus_word) (pyLower p.2))).map (·.1)
    else none
  let blankIdx := match focusIdx with
    | some i => some i
    | none => gqVerbIdx words
  match blankIdx with
  | none => none
  | some i => some (pyJoinSpace (words.set i "____"))

/-- `GrammarQuestionGenerator._generate_options_from_mistake`. -/
def gqOptions (shuffle : List String → List String)
    (incorrect correct error_type : String) : List String × Nat :=
  let cw := (gqCorrectWord incorrect correct).1
  let ds := gqDistractorsByType cw (gqCorrectWord incorrect correct).2 error_type
  let options := [cw] ++ ds.take 3
  let options := options ++ List.replicate (4 - options.length) (cw ++ "s")
  let options := shuffle options
  (options, options.indexOf cw)

/-- `GrammarQuestionGenerator._generate_explanation` (keyed by the exact
`error_type`; `correct` is the full corrected sentence). -/
def gqExplanation (correct incorrect error_type : String) : String :=
  let table : List (String × String) :=
    [ ("grammar_past_tense",
       "Use past tense when describing completed actions. " ++ aposS ++ correct ++
         aposS ++ " is the correct past tense form."),
      ("grammar_verb_tense",
       "The verb tense should match the time reference. " ++ aposS ++ correct ++
         aposS ++ " is the appropriate tense here."),
      ("grammar_subject_verb",
       "The verb must agree with the subject. " ++ aposS ++ correct ++
         aposS ++ " is the correct form for subject-verb agreement."),
      ("grammar_article",
       "The correct article usage is " ++ aposS ++ correct ++ aposS ++ " in this context."),
      ("grammar_preposition",
       "The correct preposition is " ++ aposS ++ correct ++ aposS ++
         " when used with this verb/noun."),
      ("grammar_pronoun",
       aposS ++ correct ++ aposS ++ " is the appropriate pronoun in this context."),
      ("grammar_word_order",
       "The correct word order is " ++ aposS ++ correct ++ aposS ++ "."),
      ("grammar_plural",
       aposS ++ correct ++ aposS ++ " is the correct singular/plural form.") ]
  match table.find? (fun p => p.1 = error_type) with
  | some p => p.2
  | none => "The correct form is " ++ aposS ++ correct ++ aposS ++ "."

/-- `GrammarQuestionGenerator._create_question_from_mistake`:
`(prompt, options, correct_index, explanation)`. -/
def gqCreateQuestion (shuffle : List String → List String) (m : Mistake) :
    Option (String × List String × Nat × String) :=
  if m.incorrect = "" ∨ m.correct = "" then none
  else
    match gqPromptBlank m.correct m.focus_word with
    | none => none
    | some prompt =>
      let or2 := gqOptions shuffle m.incorrect m.correct m.error_type
      some (prompt, or2.1, or2.2, gqExplanation m.correct m.incorrect m.error_type)

/-!
## `src/main.py` — `LessonProcessor.process_lesson` (orchestrator)
-/

structure Flashcard where
  word : String
  translation : String
  example_sentence : String
  category : String
  difficulty : String
deriving DecidableEq, Repr

structure Bundle where
  fill_in_blank : List FIBExercise
  flashcards : List Flashcard
  spelling : List SpellingItem
deriving DecidableEq, Repr

def emptyBundle : Bundle := ⟨[], [], []⟩

def bundleTotal (b : Bundle) : Nat :=
  b.fill_in_blank.length + b.flashcards.length + b.spelling.length

/-- The trim/balance `while total > 12` loop of `process_lesson`.  The
final inner branch (no list above its floor while the total still exceeds
12) is unreachable — it would imply `total ≤ 8` — so returning the state
there matches the source on every reachable input. -/
def balance {α β γ : Type} (fib : List α) (fc : List β) (sp : List γ) :
    List α × List β × List γ :=
  if fib.length + fc.length + sp.length > 12 then
    if sp.length > 2 then balance fib fc sp.dropLast
    else if fc.length > 3 then balance fib fc.dropLast sp
    else if fib.length > 3 then balance fib.dropLast fc sp
    else (fib, fc, sp)
  else (fib, fc, sp)
termination_by fib.length + fc.length + sp.length
decreasing_by
  all_goals simp only [List.length_dropLast]; omega

/-- The same loop as a literal fuel-indexed while loop: `none` means the
loop has not exited within `fuel` iterations.  In the stuck (unreachable)
case the body makes no progress, exactly as in the source. -/
def balanceIter {α β γ : Type} :
    Nat → List α → List β → List γ → Option (List α × List β × List γ)
  | 0, _, _, _ => none
  | fuel + 1, fib, fc, sp =>
    if fib.length + fc.length + sp.length > 12 then
      if sp.length > 2 then balanceIter fuel fib fc sp.dropLast
      else if fc.length > 3 then balanceIter fuel fib fc.dropLast sp
      else if fib.length > 3 then balanceIter fuel fib.dropLast fc sp
      else balanceIter fuel fib fc sp
    else some (fib, fc, sp)

/-- `LessonProcessor.process_lesson`.  The try-block's extract+generate
phase is abstracted as `pipeline`: `.ok (fib, flashcards, spelling)` is a
normal run, `.error e` a raised exception, which the orchestrator's
`except` clause converts to the all-empty bundle.  The `total < 8` branch
of the source only logs (its body is `pass`), and the quality check does
not mutate the lists, so neither affects the returned bundle. -/
def process_lesson
    (pipeline : String → Except String (List FIBExercise × List Flashcard × List SpellingItem))
    (transcript : String) (lessonNumber : Int) : Bundle :=
  if transcript = "" || pyStrip transcript = "" then emptyBundle
  else
    match pipeline transcript with
    | .error _ => emptyBundle
    | .ok t =>
      let b := balance t.1 t.2.1 t.2.2
      { fill_in_blank := b.1, flashcards := b.2.1, spelling := b.2.2 }

/-!
## Helper lemmas
-/

theorem balance_total_le {α β γ : Type} :
    ∀ (n : Nat) (fib : List α) (fc : List β) (sp : List γ),
      fib.length + fc.length + sp.length = n →
      (balance fib fc sp).1.length + (balance fib fc sp).2.1.length +
        (balance fib fc sp).2.2.length ≤ 12 := by
  intro n
  induction n using Nat.strong_induction_on with
  | _ n ih =>
    intro fib fc sp h
    rw [balance.eq_def]
    by_cases h12 : fib.length + fc.length + sp.length > 12
    · simp only [h12, if_true]
      by_cases hsp : sp.length > 2
      · simp only [hsp, if_true]
        exact ih (n - 1) (by omega) _ _ _ (by simp [List.length_dropLast]; omega)
      · simp only [hsp, if_false]
        by_cases hfc : fc.length > 3
        · simp only [hfc, if_true]
          exact ih (n - 1) (by omega) _ _ _ (by simp [List.length_dropLast]; omega)
        · simp only [hfc, if_false]
          by_cases hfib : fib.length > 3
          · simp only [hfib, if_true]
            exact ih (n - 1) (by omega) _ _ _ (by simp [List.length_dropLast]; omega)
          · omega
    · simp only [h12, if_false]
      omega

theorem balanceIter_eq_balance {α β γ : Type} :
    ∀ (n : Nat) (fib : List α) (fc : List β) (sp : List γ),
      fib.length + fc.length + sp.length < n →
      balanceIter n fib fc sp = some (balance fib fc sp) := by
  intro n
  induction n with
  | zero => intro fib fc sp h; omega
  | succ n ih =>
    intro fib fc sp h
    rw [balanceIter, balance.eq_def]
    by_cases h12 : fib.length + fc.length + sp.length > 12
    · simp only [h12, if_true]
      by_cases hsp : sp.length > 2
      · simp only [hsp, if_true]
        exact ih _ _ _ (by simp [List.length_dropLast]; omega)
      · simp only [hsp, if_false]
        by_cases hfc : fc.length > 3
        · simp only [hfc, if_true]
          exact ih _ _ _ (by simp [List.length_dropLast]; omega)
        · simp only [hfc, if_false]
          by_cases hfib : fib.length > 3
          · simp only [hfib, if_true]
            exact ih _ _ _ (by simp [List.length_dropLast]; omega)
          · omega
    · simp only [h12, if_false]

/-!
## C1 — orchestrator fail-soft behaviour
-/

/-- **C1.** `process_lesson` never raises (it is a total function of its
inputs here): a blank or whitespace-only transcript yields the all-empty
bundle, and a pipeline that raises (an `.error` result of the abstracted
extract+generate phase) is caught at the orchestrator boundary and
converted to the same all-empty bundle. -/
theorem process_lesson_fail_soft :
    ∀ (pipeline : String → Except String
        (List FIBExercise × List Flashcard × List SpellingItem))
      (transcript : String) (n : Int),
      (pyStrip transcript = "" → process_lesson pipeline transcript n = emptyBundle) ∧
      (∀ e, pipeline transcript = .error e →
        process_lesson pipeline transcript n = emptyBundle) := by
  intro pipeline transcript n
  constructor
  · intro hblank
    unfold process_lesson
    simp [hblank]
  · intro e herr
    unfold process_lesson
    by_cases hb : (transcript = "" || pyStrip transcript = "") = true
    · simp [hb]
    · simp only [hb, if_false]
      rw [herr]
      simp

/-- Witness for C1 at the empty transcript and at an always-raising
pipeline. -/
theorem process_lesson_fail_soft_witness :
    process_lesson (fun _ => .ok ([], [], [])) "" 1 = emptyBundle ∧
    process_lesson (fun _ => .error "boom") "hello" 2 = emptyBundle :=
  ⟨(process_lesson_fail_soft (fun _ => .ok ([], [], [])) "" 1).1 (by decide),
   (process_lesson_fail_soft (fun _ => .error "boom") "hello" 2).2 "boom" rfl⟩

/-!
## C2 — budget bound and balancing-loop termination
-/

/-- **C2.** Whatever the extract+generate phase produces, the bundle
returned by `process_lesson` holds at most 12 exercises; and the trim
`while total > 12` loop, run as a literal fuel-indexed while loop, exits
within `total + 1` iterations with the same result as the recursive
`balance`. -/
theorem process_lesson_total_le_12_and_balance_terminates :
    (∀ (pipeline : String → Except String
        (List FIBExercise × List Flashcard × List SpellingItem))
       (transcript : String) (n : Int),
       bundleTotal (process_lesson pipeline transcript n) ≤ 12) ∧
    (∀ (α β γ : Type) (fib : List α) (fc : List β) (sp : List γ),
       balanceIter (fib.length + fc.length + sp.length + 1) fib fc sp =
         some (balance fib fc sp)) := by
  constructor
  · intro pipeline transcript n
    unfold process_lesson
    by_cases hb : (transcript = "" || pyStrip transcript = "") = true
    · simp [hb, emptyBundle, bundleTotal]
    · simp only [hb, if_false]
      cases hres : pipeline transcript with
      | error e => simp [emptyBundle, bundleTotal]
      | ok t =>
        simp only [bundleTotal]
        exact balance_total_le _ t.1 t.2.1 t.2.2 rfl
  · intro α β γ fib fc sp
    exact balanceIter_eq_balance _ fib fc sp (by omega)

/-!
## C10 — `generate_distractors` ignores its context and the AI model
-/

/-- **C10.** `GeminiHelper.generate_distractors` is independent of its
`context` argument and of the helper's `enabled` state (it never consults
the AI model): with the same random source, any two contexts and any two
enabled states give identical distractor lists. -/
theorem generate_distractors_context_independent :
    ∀ (shuffle : List String → List String) (e1 e2 : Bool) (word : String)
      (c1 c2 : String) (count : Nat),
      geminiGenerateDistractors shuffle e1 word c1 count =
        geminiGenerateDistractors shuffle e2 word c2 count := by
  intro shuffle e1 e2 word c1 c2 count
  rfl

/-!
## C4 — the two-line correction scenario
-/

/-- The transcript of the claim's scenario. -/
def scenarioTranscript : String :=
  "Student: I waking up at 7 AM.\nTeacher: Correction: I wake up at 7 AM."

/-- **C4, counterexample.**  The claim asserts the extracted pair is
`("I waking up at 7 AM.", "I wake up at 7 AM.")` — with a trailing period
on the corrected side.  The capture group `([A-Z][^.!?]+)` stops before the
period, so the code produces `"I wake up at 7 AM"` instead and the claimed
equality is false. -/
theorem scenario_pair_claim_false :
    extractCorrections scenarioTranscript ≠
      [("I waking up at 7 AM.", "I wake up at 7 AM.")] := by
  decide

/-- **C4, amended.**  Correction extraction yields exactly one pair
`("I waking up at 7 AM.", "I wake up at 7 AM")` (no trailing period on the
corrected side), and the mistake extractor classifies it with error type
`grammar_verb_tense` and focus word `wake`. -/
theorem scenario_pair_amended :
    extractCorrections scenarioTranscript =
      [("I waking up at 7 AM.", "I wake up at 7 AM")] ∧
    mistakeExtract scenarioTranscript =
      [{ incorrect := "I waking up at 7 AM.", correct := "I wake up at 7 AM",
         error_type := "grammar_verb_tense", focus_word := "wake",
         severity := "high" }] := by
  constructor <;> decide

/-!
## C9 — per-call de-duplication of the extracted lists
-/

theorem foldl_preserves {α β : Type} (P : α → Prop) (f : α → β → α)
    (h : ∀ a b, P a → P (f a b)) :
    ∀ (l : List β) (a : α), P a → P (List.foldl f a l) := by
  intro l
  induction l with
  | nil => intro a ha; exact ha
  | cons b t ih => intro a ha; exact ih (f a b) (h a b ha)

/-- The push-if-unseen invariant: the accumulated list has pairwise
distinct keys and every key is recorded in `seen`. -/
def SeenInv {α : Type} (key : α → String) (st : List α × List String) : Prop :=
  st.1.Pairwise (fun a b => key a ≠ key b) ∧ ∀ a ∈ st.1, key a ∈ st.2

theorem SeenInv.push {α : Type} (key : α → String) {acc : List α}
    {seen : List String} {x : α} (h : SeenInv key (acc, seen))
    (hx : ¬ key x ∈ seen) : SeenInv key (acc ++ [x], seen ++ [key x]) := by
  obtain ⟨hpw, hseen⟩ := h
  constructor
  · rw [List.pairwise_append]
    refine ⟨hpw, by simp, ?_⟩
    intro a ha b hb
    rw [List.mem_singleton] at hb
    subst hb
    intro heq
    exact hx (heq ▸ hseen a ha)
  · intro a ha
    rw [List.mem_append] at ha
    rcases ha with ha | ha
    · exact List.mem_append.mpr (Or.inl (hseen a ha))
    · rw [List.mem_singleton] at ha
      subst ha
      simp

theorem SeenInv.grow {α : Type} (key : α → String) {acc : List α}
    {seen extra : List String} (h : SeenInv key (acc, seen)) :
    SeenInv key (acc, seen ++ extra) :=
  ⟨h.1, fun a ha => List.mem_append.mpr (Or.inl (h.2 a ha))⟩

theorem vocabPhase1_inv (corrections : List (String × String)) :
    ∀ (acc : List VocabItem) (seen : List String),
      SeenInv (fun v => pyLower v.word) (acc, seen) →
      SeenInv (fun v => pyLower v.word) (vocabPhase1 acc seen corrections) := by
  induction corrections with
  | nil => intro acc seen h; exact h
  | cons p rest ih =>
    intro acc seen h
    rw [vocabPhase1]
    refine ih _ _ ?_
    refine foldl_preserves (fun st => SeenInv (fun v => pyLower v.word) st) _ ?_
      _ (acc, seen) h
    intro st word hst
    dsimp only
    set nw := if pyIn " " word = true then (pySplitWs word).headD "" else word with hn
    split
    · rename_i hc
      apply SeenInv.push _ hst
      simpa using hc
    · exact hst

theorem vocabPhase2_inv (lines : List String) :
    ∀ (acc : List VocabItem) (seen : List String),
      SeenInv (fun v => pyLower v.word) (acc, seen) →
      SeenInv (fun v => pyLower v.word) (vocabPhase2 acc seen lines) := by
  induction lines with
  | nil => intro acc seen h; exact h
  | cons line rest ih =>
    intro acc seen h
    rw [vocabPhase2]
    refine ih _ _ ?_
    cases hcap : searchCap explicitVocabPats explicitVocabCap line.data with
    | none => simpa [hcap] using h
    | some wordsStr =>
      simp only [hcap]
      refine foldl_preserves (fun st => SeenInv (fun v => pyLower v.word) st) _ ?_
        _ (acc, seen) h
      intro st word0 hst
      dsimp only
      split
      · rename_i hc
        apply SeenInv.push _ hst
        intro hmem
        simp only [Bool.and_eq_true, Bool.not_eq_true'] at hc
        have := hc.1.2
        simp [hmem] at this
      · exact hst

theorem vocabPhase3_inv (contextLines : List String) (topic : String)
    (ws : List String) :
    ∀ (acc : List VocabItem) (seen : List String),
      SeenInv (fun v => pyLower v.word) (acc, seen) →
      SeenInv (fun v => pyLower v.word) (vocabPhase3 contextLines acc seen topic ws) := by
  induction ws with
  | nil => intro acc seen h; exact h
  | cons word rest ih =>
    intro acc seen h
    rw [vocabPhase3]
    refine ih _ _ ?_
    dsimp only
    split
    · rename_i hc
      cases hf : contextLines.find? (fun l => pyIn (pyLower word) (pyLower l)) with
      | none => simpa [hf] using h
      | some context =>
        simp only [hf]
        apply SeenInv.push _ h
        simpa using hc
    · exact h

theorem spellingLoop1_inv (mistakes : List Mistake) :
    ∀ (acc : List SpellingItem) (seen : List String),
      SeenInv (fun s => pyLower s.word) (acc, seen) →
      SeenInv (fun s => pyLower s.word) (spellingLoop1 acc seen mistakes) := by
  induction mistakes with
  | nil => intro acc seen h; exact h
  | cons m rest ih =>
    intro acc seen h
    rw [spellingLoop1]
    split
    · rename_i hc
      refine ih _ _ (SeenInv.push _ h ?_)
      intro hmem
      simp only [Bool.and_eq_true, Bool.not_eq_true'] at hc
      have := hc.2
      simp [hmem] at this
    · exact ih _ _ h

theorem spellingLoop2_inv (maxW : Nat) (vocab : List VocabItem) :
    ∀ (acc : List SpellingItem) (seen : List String),
      SeenInv (fun s => pyLower s.word) (acc, seen) →
      SeenInv (fun s => pyLower s.word) (spellingLoop2 maxW acc seen vocab) := by
  induction vocab with
  | nil => intro acc seen h; exact h
  | cons v rest ih =>
    intro acc seen h
    rw [spellingLoop2]
    split
    · exact h
    · dsimp only
      split
      · rename_i hc
        refine ih _ _ (SeenInv.push _ h ?_)
        intro hmem
        simp only [Bool.and_eq_true, Bool.not_eq_true'] at hc
        have := hc.2
        simp [hmem] at this
      · exact ih _ _ h

theorem spellingLoop3_inv (maxW : Nat) (vocab : List VocabItem) :
    ∀ (acc : List SpellingItem) (seen : List String),
      SeenInv (fun s => pyLower s.word) (acc, seen) →
      SeenInv (fun s => pyLower s.word) (spellingLoop3 maxW acc seen vocab) := by
  induction vocab with
  | nil => intro acc seen h; exact h
  | cons v rest ih =>
    intro acc seen h
    rw [spellingLoop3]
    split
    · exact h
    · dsimp only
      split
      · rename_i hc
        refine ih _ _ (SeenInv.push _ h ?_)
        intro hmem
        simp only [Bool.and_eq_true, Bool.not_eq_true'] at hc
        have := hc.2
        simp [hmem] at this
      · exact ih _ _ h

/-- **C9, amended.**  Within one extraction call, the vocabulary list and
the spelling list contain no two entries sharing a lower-cased word key.
(The mistake list has no such de-duplication — see the counterexample.) -/
theorem vocab_and_spelling_deduplicated :
    (∀ transcript : String,
      (vocabExtract transcript).Pairwise (fun a b => pyLower a.word ≠ pyLower b.word)) ∧
    (∀ (maxW : Nat) (vocabulary : List VocabItem) (mistakes : List Mistake),
      (spellingGenerate maxW vocabulary mistakes).Pairwise
        (fun a b => pyLower a.word ≠ pyLower b.word)) := by
  constructor
  · intro transcript
    unfold vocabExtract
    have h0 : SeenInv (fun v : VocabItem => pyLower v.word) ([], []) :=
      ⟨List.Pairwise.nil, by simp⟩
    have h1 := vocabPhase1_inv (extractCorrections transcript) [] [] h0
    have h2 := vocabPhase2_inv (extractTeacherUtterances transcript) _ _ h1
    cases hf : topicVocab.find? (fun p => p.1 = identifyLessonTopic transcript) with
    | none => simpa [hf] using h2.1
    | some p =>
      simp only [hf]
      exact (vocabPhase3_inv _ _ _ _ _ h2).1
  · intro maxW vocabulary mistakes
    unfold spellingGenerate
    have h0 : SeenInv (fun s : SpellingItem => pyLower s.word) ([], []) :=
      ⟨List.Pairwise.nil, by simp⟩
    have h1 := spellingLoop1_inv mistakes [] [] h0
    have h2 := spellingLoop2_inv maxW vocabulary _ _ h1
    have h3 := spellingLoop3_inv maxW vocabulary _ _ h2
    exact List.Pairwise.sublist (List.take_sublist _ _) h3.1

/-- A transcript repeating the same exchange twice. -/
def duplicateTranscript : String :=
  "Student: I go.\nTeacher: Correction: I went home\nStudent: I go.\nTeacher: Correction: I went home"

/-- **C9, counterexample.**  `MistakeExtractor.extract` performs no
de-duplication: a transcript repeating one exchange yields two mistake
records with the same lower-cased (incorrect, correct) content, so the
claim's mistake-list clause is false. -/
theorem mistake_list_not_deduplicated :
    ¬ (mistakeExtract duplicateTranscript).Pairwise
        (fun a b => pyLower a.incorrect ≠ pyLower b.incorrect ∨
                    pyLower a.correct ≠ pyLower b.correct) := by
  decide

/-!
## C8 — the advanced-cloze distractor loop does not always terminate
-/

theorem acGenericWhile_stuck_two :
    ∀ fuel, acGenericWhile "disappointed" fuel ["disappointing", "understand"] = none := by
  intro fuel
  induction fuel with
  | zero => rfl
  | succ n ih =>
    rw [acGenericWhile]
    rw [if_neg (by decide)]
    rw [show acAddGenerics "disappointed" ["disappointing", "understand"] acGenericList =
          ["disappointing", "understand"] from by decide]
    exact ih

/-- **C8.**  The claim says distractor synthesis always terminates with
exactly three distractors.  For the cleaned word `disappointed` the
advanced-cloze builder's `while len(distractors) < 3` loop never exits:
the suffix rule contributes only `disappointing`, the only generic word of
length ≥ 10 is `understand`, and once both are in the set a full pass adds
nothing while the count is still 2 — in the fuel-indexed model the loop
fails for every fuel, i.e. the Python loop runs forever. -/
theorem ac_distractors_diverge_on_disappointed :
    ∀ (shuffle : List String → List String) (fuel : Nat) (context : String),
      acGenerateDistractors shuffle fuel "disappointed" context = none := by
  intro shuffle fuel context
  unfold acGenerateDistractors
  rw [show cleanWord "disappointed" = "disappointed" from by decide]
  show (match acGenericWhile "disappointed" fuel (acInitDistractors "disappointed") with
        | none => none
        | some ds => some (shuffle (["disappointed"] ++ List.take 3 ds))) = none
  rw [show acInitDistractors "disappointed" = ["disappointing"] from by decide]
  cases fuel with
  | zero => rfl
  | succ n =>
    rw [acGenericWhile]
    rw [if_neg (by decide)]
    rw [show acAddGenerics "disappointed" ["disappointing"] acGenericList =
          ["disappointing", "understand"] from by decide]
    rw [acGenericWhile_stuck_two n]

/-!
## C6 — grammar questions: key in options, prompt from the correct sentence
-/

theorem getD_indexOf_of_mem {l : List String} {a : String} (h : a ∈ l) :
    l.getD (l.indexOf a) "" = a := by
  induction l with
  | nil => cases h
  | cons b t ih =>
    by_cases hb : b = a
    · subst hb; simp [List.indexOf_cons_self]
    · rw [List.mem_cons] at h
      rcases h with h | h
      · exact absurd h.symm hb
      · rw [List.indexOf_cons_ne _ (by exact fun hc => hb (by simpa using hc))]
        simpa using ih h

theorem join_decomp {t : String} : ∀ {ts : List String}, t ∈ ts →
    ∃ pre post, (pyJoinSpace ts).data = pre ++ t.data ++ post := by
  intro ts
  induction ts with
  | nil => intro h; cases h
  | cons w rest ih =>
    intro h
    rw [List.mem_cons] at h
    cases rest with
    | nil =>
      rcases h with h | h
      · subst h; exact ⟨[], [], by simp [pyJoinSpace]⟩
      · cases h
    | cons w2 r2 =>
      rcases h with h | h
      · subst h
        exact ⟨[], (" " ++ pyJoinSpace (w2 :: r2)).data, by
          simp [pyJoinSpace, String.data_append]⟩
      · obtain ⟨pre, post, hpp⟩ := ih h
        refine ⟨w.data ++ " ".data ++ pre, post, ?_⟩
        show (w ++ " " ++ pyJoinSpace (w2 :: r2)).data = _
        simp only [String.data_append, hpp]
        simp

theorem isSubL_of_decomp {needle : List Char} :
    ∀ (pre : List Char) {hay : List Char} (post : List Char),
      hay = pre ++ needle ++ post → needle ≠ [] → isSubL needle hay = true := by
  intro pre
  induction pre with
  | nil =>
    intro hay post hh hne
    subst hh
    cases hn : needle with
    | nil => exact absurd hn hne
    | cons c cs =>
      subst hn
      show ((c :: cs).isPrefixOf (c :: cs ++ post) || _) = true
      have : (c :: cs).isPrefixOf ((c :: cs) ++ post) = true :=
        List.isPrefixOf_iff_prefix.mpr (List.prefix_append _ _)
      simp only [List.cons_append] at this ⊢
      rw [this]
      simp
  | cons c rest ih =>
    intro hay post hh hne
    subst hh
    show (needle.isPrefixOf _ || isSubL needle (rest ++ needle ++ post)) = true
    rw [ih post rfl hne]
    simp

/-- **C6.**  Every question built from a mistake satisfies
`options[correct_index] = the extracted correct word`, and its prompt is the
**correct** sentence with one token blanked out, so the prompt contains the
marker `____`. -/
theorem grammar_question_correct_option_and_prompt :
    ∀ (shuffle : List String → List String),
      (∀ l : List String, (shuffle l).Perm l) →
      ∀ (m : Mistake) (r : String × List String × Nat × String),
        gqCreateQuestion shuffle m = some r →
        r.2.1.getD r.2.2.1 "" = (gqCorrectWord m.incorrect m.correct).1 ∧
        (∃ i, i < (pySplitWs m.correct).length ∧
          r.1 = pyJoinSpace ((pySplitWs m.correct).set i "____")) ∧
        isSubL "____".data r.1.data = true := by
  intro shuffle hperm m r hr
  unfold gqCreateQuestion at hr
  split at hr
  · exact absurd hr (by simp)
  · rename_i hne
    cases hpb : gqPromptBlank m.correct m.focus_word with
    | none => rw [hpb] at hr; exact absurd hr (by simp)
    | some prompt =>
      rw [hpb] at hr
      simp only [Option.some.injEq] at hr
      subst hr
      have hprompt : ∃ i, i < (pySplitWs m.correct).length ∧
          prompt = pyJoinSpace ((pySplitWs m.correct).set i "____") := by
        unfold gqPromptBlank at hpb
        have hidx : ∀ (io : Option Nat), io = (if m.focus_word ≠ "" then
            (((pySplitWs m.correct).enum.find?
              (fun p => pyIn (pyLower m.focus_word) (pyLower p.2))).map (·.1))
            else none) →
            (match (match io with
                    | some i => some i
                    | none => gqVerbIdx (pySplitWs m.correct)) with
             | none => none
             | some i => some (pyJoinSpace ((pySplitWs m.correct).set i "____"))) = some prompt →
            ∃ i, i < (pySplitWs m.correct).length ∧
              prompt = pyJoinSpace ((pySplitWs m.correct).set i "____") := by
          intro io hio hm
          cases io with
          | some i =>
            simp only [Option.some.injEq] at hm
            refine ⟨i, ?_, hm.symm⟩
            cases hfi : ((pySplitWs m.correct).enum.find?
                (fun p => pyIn (pyLower m.focus_word) (pyLower p.2))) with
            | none => rw [hfi] at hio; split at hio <;> simp at hio
            | some p =>
              rw [hfi] at hio
              split at hio
              · simp only [Option.map_some', Option.some.injEq] at hio
                subst hio
                exact (List.mem_enum (List.mem_of_find?_eq_some hfi)).1
              · simp at hio
          | none =>
            cases hv : gqVerbIdx (pySplitWs m.correct) with
            | none => rw [hv] at hm; simp at hm
            | some i =>
              rw [hv] at hm
              simp only [Option.some.injEq] at hm
              refine ⟨i, ?_, hm.symm⟩
              unfold gqVerbIdx at hv
              cases hfv : ((pySplitWs m.correct).enum.find? (fun p =>
                  let clean := cleanWord p.2
                  pyEndsWith "ed" clean || pyEndsWith "ing" clean ||
                    (["is", "are", "was", "were", "have", "has", "had"] : List String).contains clean)) with
              | none => rw [hfv] at hv; simp at hv
              | some p =>
                rw [hfv] at hv
                simp only [Option.map_some', Option.some.injEq] at hv
                subst hv
                exact (List.mem_enum (List.mem_of_find?_eq_some hfv)).1
        exact hidx _ rfl hpb
      obtain ⟨i, hi, hpe⟩ := hprompt
      refine ⟨?_, ⟨i, hi, hpe⟩, ?_⟩
      · -- options[correct_index] = extracted correct word
        unfold gqOptions
        dsimp only
        apply getD_indexOf_of_mem
        have hmem0 : (gqCorrectWord m.incorrect m.correct).1 ∈
            ([(gqCorrectWord m.incorrect m.correct).1] ++
              (gqDistractorsByType (gqCorrectWord m.incorrect m.correct).1
                (gqCorrectWord m.incorrect m.correct).2 m.error_type).take 3) ++
              List.replicate (4 - ([(gqCorrectWord m.incorrect m.correct).1] ++
                (gqDistractorsByType (gqCorrectWord m.incorrect m.correct).1
                  (gqCorrectWord m.incorrect m.correct).2 m.error_type).take 3).length)
                ((gqCorrectWord m.incorrect m.correct).1 ++ "s") := by
          simp
        exact ((hperm _).mem_iff).mpr hmem0
      · -- the prompt contains the marker
        have hmem : ("____" : String) ∈ (pySplitWs m.correct).set i "____" :=
          List.mem_set _ i hi "____"
        obtain ⟨pre, post, hd⟩ := join_decomp hmem
        rw [hpe]
        exact isSubL_of_decomp pre post hd (by decide)

/-- Witness for C6 at a concrete past-tense mistake with the identity
shuffle. -/
theorem grammar_question_witness :
    (["went", "go", "goes", "going"] : List String).getD 0 "" =
      (gqCorrectWord "I go to school" "I went to school").1 ∧
    isSubL "____".data ("I ____ to school" : String).data = true :=
  have h := grammar_question_correct_option_and_prompt id (fun l => List.Perm.refl l)
    { incorrect := "I go to school", correct := "I went to school",
      error_type := "grammar_past_tense", focus_word := "went", severity := "high" }
    ("I ____ to school", ["went", "go", "goes", "going"], 0,
      "Use past tense when describing completed actions. " ++ aposS ++
        "I went to school" ++ aposS ++ " is the correct past tense form.")
    (by decide)
  ⟨h.1, h.2.2⟩

/-!
## C5 / C7 — structural invariants of the advanced-cloze items
-/

theorem acGenericWhile_some_len {cw : String} :
    ∀ {fuel : Nat} {ds r : List String},
      acGenericWhile cw fuel ds = some r → 3 ≤ r.length := by
  intro fuel
  induction fuel with
  | zero => intro ds r h; exact absurd h (by simp [acGenericWhile])
  | succ n ih =>
    intro ds r h
    rw [acGenericWhile] at h
    split at h
    · rename_i hlen
      simp only [Option.some.injEq] at h
      subst h
      exact hlen
    · exact ih h

theorem acGenerateDistractors_spec {shuffle : List String → List String}
    (hperm : ∀ l : List String, (shuffle l).Perm l) {fuel : Nat}
    {w ctx : String} {opts : List String}
    (h : acGenerateDistractors shuffle fuel w ctx = some opts) :
    cleanWord w ∈ opts ∧ opts.length = 4 := by
  simp only [acGenerateDistractors] at h
  cases hW : acGenericWhile (cleanWord w) fuel (acInitDistractors (cleanWord w)) with
  | none => rw [hW] at h; exact absurd h (by simp)
  | some ds =>
    rw [hW] at h
    simp only [Option.some.injEq] at h
    subst h
    constructor
    · exact (hperm _).mem_iff.mpr (by simp)
    · rw [(hperm _).length_eq]
      have h3 := acGenericWhile_some_len hW
      simp [List.length_take]
      omega

theorem acOptionsAll_spec {shuffle : List String → List String} {fuel : Nat}
    {sentence : String} :
    ∀ {l : List String} {opts : List (List String)},
      acOptionsAll shuffle fuel sentence l = some opts →
      opts.length = l.length ∧
      ∀ i, i < l.length →
        acGenerateDistractors shuffle fuel (l.getD i "") sentence =
          some (opts.getD i []) := by
  intro l
  induction l with
  | nil =>
    intro opts h
    simp only [acOptionsAll, Option.some.injEq] at h
    subst h
    exact ⟨rfl, fun i hi => absurd hi (by simp)⟩
  | cons cw rest ih =>
    intro opts h
    rw [acOptionsAll] at h
    cases hd : acGenerateDistractors shuffle fuel cw sentence with
    | none => rw [hd] at h; exact absurd h (by simp)
    | some o =>
      rw [hd] at h
      cases hrest : acOptionsAll shuffle fuel sentence rest with
      | none => rw [hrest] at h; exact absurd h (by simp)
      | some os =>
        rw [hrest] at h
        simp only [Option.map_some', Option.some.injEq] at h
        subst h
        obtain ⟨hlen, hpt⟩ := ih hrest
        constructor
        · simp [hlen]
        · intro i hi
          cases i with
          | zero => simpa using hd
          | succ j =>
            simp only [List.getD_cons_succ]
            exact hpt j (by simpa using hi)

theorem acPartsLoop_lens {words : List String} :
    ∀ (idxs : List Nat) (pos : Nat) (tps correct : List String),
      (acPartsLoop words pos tps correct idxs).1.length =
        tps.length + idxs.length ∧
      (acPartsLoop words pos tps correct idxs).2.1.length =
        correct.length + idxs.length := by
  intro idxs
  induction idxs with
  | nil => intro pos tps cor; simp [acPartsLoop]
  | cons idx rest ih =>
    intro pos tps cor
    rw [acPartsLoop]
    obtain ⟨h1, h2⟩ := ih (idx + 1)
      (tps ++ [if pyJoinSpace ((words.drop pos).take (idx - pos)) ≠ ""
               then pyJoinSpace ((words.drop pos).take (idx - pos)) ++ " " else ""])
      (cor ++ [words.getD idx ""])
    constructor
    · rw [h1]; simp; omega
    · rw [h2]; simp; omega

theorem acCreateMultiBlank_spec {shuffle : List String → List String}
    {fuel : Nat} {sentence : String} {vocabulary : List VocabItem}
    {r : ClozeParts}
    (h : acCreateMultiBlank shuffle fuel sentence vocabulary = some (some r)) :
    r.1.length = r.2.2.1.length + 1 ∧ r.2.1.length = r.2.2.1.length ∧
    ((∀ l : List String, (shuffle l).Perm l) →
      ∀ i, i < r.2.2.1.length →
        cleanWord (r.2.2.1.getD i "") ∈ r.2.1.getD i []) := by
  simp only [acCreateMultiBlank] at h
  split at h
  · exact absurd h (by simp)
  · rename_i hk
    cases hopt : acOptionsAll shuffle fuel sentence
        (acPartsLoop (pySplitWs sentence) 0 [] []
          (sortNats ((acKeyIndices (pySplitWs sentence)
            (vocabulary.map (fun v => pyLower v.word))).take 3))).2.1 with
    | none =>
      rw [hopt] at h
      exact absurd h (by simp)
    | some options =>
      rw [hopt] at h
      simp only [Option.some.injEq] at h
      subst h
      obtain ⟨hlen, hpt⟩ := acOptionsAll_spec hopt
      obtain ⟨hl1, hl2⟩ := @acPartsLoop_lens (pySplitWs sentence)
        (sortNats ((acKeyIndices (pySplitWs sentence)
          (vocabulary.map (fun v => pyLower v.word))).take 3)) 0 [] []
      refine ⟨?_, ?_, ?_⟩
      · show (_ ++ [_]).length = _ + 1
        rw [List.length_append, hl1, hl2]
        simp
      · exact hlen
      · intro hperm i hi
        have := hpt i hi
        exact (acGenerateDistractors_spec hperm this).1

theorem acSingleLoop_spec {shuffle : List String → List String} {fuel : Nat}
    {sentence : String} {words : List String} :
    ∀ {ws : List String} {i : Nat} {r : ClozeParts},
      acSingleLoop shuffle fuel sentence words i ws = some (some r) →
      r.1.length = r.2.2.1.length + 1 ∧ r.2.1.length = r.2.2.1.length ∧
      ((∀ l : List String, (shuffle l).Perm l) →
        ∀ i, i < r.2.2.1.length →
          cleanWord (r.2.2.1.getD i "") ∈ r.2.1.getD i []) := by
  intro ws
  induction ws with
  | nil => intro i r h; exact absurd h (by simp [acSingleLoop])
  | cons w rest ih =>
    intro i r h
    rw [acSingleLoop] at h
    split at h
    · cases hd : acGenerateDistractors shuffle fuel (cleanWord w) sentence with
      | none => rw [hd] at h; exact absurd h (by simp)
      | some opts =>
        rw [hd] at h
        simp only [Option.some.injEq] at h
        subst h
        refine ⟨by simp, by simp, ?_⟩
        intro hperm j hj
        simp only [List.length_cons, List.length_nil] at hj
        interval_cases j
        have hm := (acGenerateDistractors_spec hperm hd).1
        have : cleanWord (cleanWord w) ∈ opts := hm
        simpa using this
    · exact ih h

theorem acCreateSingleBlank_spec {shuffle : List String → List String}
    {fuel : Nat} {sentence : String} {r : ClozeParts}
    (h : acCreateSingleBlank shuffle fuel sentence = some (some r)) :
    r.1.length = r.2.2.1.length + 1 ∧ r.2.1.length = r.2.2.1.length ∧
    ((∀ l : List String, (shuffle l).Perm l) →
      ∀ i, i < r.2.2.1.length →
        cleanWord (r.2.2.1.getD i "") ∈ r.2.1.getD i []) :=
  acSingleLoop_spec h

/-- Provenance of generated items: each comes from the accumulator or from
one of the two creators. -/
def FromCreators (shuffle : List String → List String) (fuel : Nat)
    (vocabulary : List VocabItem) (it : ClozeItem) : Prop :=
  ∃ (s : String) (r : ClozeParts),
    (acCreateMultiBlank shuffle fuel s vocabulary = some (some r) ∨
     acCreateSingleBlank shuffle fuel s = some (some r)) ∧
    it.text_parts = r.1 ∧ it.options = r.2.1 ∧ it.correct = r.2.2.1

theorem acGenLoop1_mem {shuffle : List String → List String} {fuel maxI : Nat}
    {vocabulary : List VocabItem} {topic lesson : String} :
    ∀ {l : List ACSentence} {items : List ClozeItem} {seen : List String}
      {res : List ClozeItem × List String},
      acGenLoop1 shuffle fuel maxI vocabulary topic lesson items seen l = some res →
      ∀ it ∈ res.1, it ∈ items ∨ FromCreators shuffle fuel vocabulary it := by
  intro l
  induction l with
  | nil =>
    intro items seen res h it hit
    simp only [acGenLoop1, Option.some.injEq] at h
    subst h
    exact Or.inl hit
  | cons sd rest ih =>
    intro items seen res h it hit
    rw [acGenLoop1] at h
    split at h
    · simp only [Option.some.injEq] at h; subst h; exact Or.inl hit
    · dsimp only at h
      split at h
      · cases hc : acCreateMultiBlank shuffle fuel sd.text vocabulary with
        | none => rw [hc] at h; exact absurd h (by simp)
        | some o =>
          rw [hc] at h
          cases o with
          | none => exact ih h it hit
          | some r =>
            rcases ih h it hit with hmem | hfc
            · rw [List.mem_append] at hmem
              rcases hmem with hmem | hmem
              · exact Or.inl hmem
              · rw [List.mem_singleton] at hmem
                subst hmem
                exact Or.inr ⟨sd.text, r, Or.inl hc, rfl, rfl, rfl⟩
            · exact Or.inr hfc
      · exact ih h it hit

theorem acGenLoop2_mem {shuffle : List String → List String} {fuel minI : Nat}
    {vocabulary : List VocabItem} {topic lesson : String} :
    ∀ {l : List ACSentence} {items : List ClozeItem} {seen : List String}
      {res : List ClozeItem × List String},
      acGenLoop2 shuffle fuel minI topic lesson items seen l = some res →
      ∀ it ∈ res.1, it ∈ items ∨ FromCreators shuffle fuel vocabulary it := by
  intro l
  induction l with
  | nil =>
    intro items seen res h it hit
    simp only [acGenLoop2, Option.some.injEq] at h
    subst h
    exact Or.inl hit
  | cons sd rest ih =>
    intro items seen res h it hit
    rw [acGenLoop2] at h
    split at h
    · simp only [Option.some.injEq] at h; subst h; exact Or.inl hit
    · dsimp only at h
      split at h
      · cases hc : acCreateSingleBlank shuffle fuel sd.text with
        | none => rw [hc] at h; exact absurd h (by simp)
        | some o =>
          rw [hc] at h
          cases o with
          | none => exact ih h it hit
          | some r =>
            rcases ih h it hit with hmem | hfc
            · rw [List.mem_append] at hmem
              rcases hmem with hmem | hmem
              · exact Or.inl hmem
              · rw [List.mem_singleton] at hmem
                subst hmem
                exact Or.inr ⟨sd.text, r, Or.inr hc, rfl, rfl, rfl⟩
            · exact Or.inr hfc
      · exact ih h it hit

theorem acGenerate_mem {shuffle : List String → List String}
    {fuel minI maxI : Nat} {sentences : List ACSentence}
    {vocabulary : List VocabItem} {topic lesson : String}
    {items : List ClozeItem}
    (h : acGenerate shuffle fuel minI maxI sentences vocabulary topic lesson =
      some items) :
    ∀ it ∈ items, FromCreators shuffle fuel vocabulary it := by
  intro it hit
  simp only [acGenerate] at h
  cases h1 : acGenLoop1 shuffle fuel maxI vocabulary topic lesson [] []
      (acFilterQuality sentences) with
  | none => rw [h1] at h; exact absurd h (by simp)
  | some st =>
    rw [h1] at h
    dsimp only at h
    split at h
    · cases h2 : acGenLoop2 shuffle fuel minI topic lesson st.1 st.2
          ((acFilterQuality sentences).take 5) with
      | none => rw [h2] at h; exact absurd h (by simp)
      | some st2 =>
        rw [h2] at h
        simp only [Option.map_some', Option.some.injEq] at h
        subst h
        rcases acGenLoop2_mem h2 it hit with hmem | hfc
        · rcases acGenLoop1_mem h1 it hmem with hmem1 | hfc1
          · cases hmem1
          · exact hfc1
        · exact hfc
    · simp only [Option.some.injEq] at h
      subst h
      rcases acGenLoop1_mem h1 it hit with hmem | hfc
      · cases hmem
      · exact hfc

/-- **C7.**  Every advanced-cloze item satisfies
`len(text_parts) = len(correct) + 1` and `len(options) = len(correct)`,
for the multi-blank construction, the single-blank fallback, and every
item produced by `generate`. -/
theorem cloze_parallel_array_lengths :
    (∀ (shuffle : List String → List String) (fuel : Nat) (sentence : String)
       (vocabulary : List VocabItem) (r : ClozeParts),
       acCreateMultiBlank shuffle fuel sentence vocabulary = some (some r) →
       r.1.length = r.2.2.1.length + 1 ∧ r.2.1.length = r.2.2.1.length) ∧
    (∀ (shuffle : List String → List String) (fuel : Nat) (sentence : String)
       (r : ClozeParts),
       acCreateSingleBlank shuffle fuel sentence = some (some r) →
       r.1.length = r.2.2.1.length + 1 ∧ r.2.1.length = r.2.2.1.length) ∧
    (∀ (shuffle : List String → List String) (fuel minI maxI : Nat)
       (sentences : List ACSentence) (vocabulary : List VocabItem)
       (topic lesson : String) (items : List ClozeItem),
       acGenerate shuffle fuel minI maxI sentences vocabulary topic lesson =
         some items →
       ∀ it ∈ items, it.text_parts.length = it.correct.length + 1 ∧
         it.options.length = it.correct.length) := by
  refine ⟨?_, ?_, ?_⟩
  · intro shuffle fuel sentence vocabulary r h
    exact ⟨(acCreateMultiBlank_spec h).1, (acCreateMultiBlank_spec h).2.1⟩
  · intro shuffle fuel sentence r h
    exact ⟨(acCreateSingleBlank_spec h).1, (acCreateSingleBlank_spec h).2.1⟩
  · intro shuffle fuel minI maxI sentences vocabulary topic lesson items h it hit
    obtain ⟨s, r, hcr, ht, ho, hc⟩ := acGenerate_mem h it hit
    rw [ht, ho, hc]
    rcases hcr with hcr | hcr
    · exact ⟨(acCreateMultiBlank_spec hcr).1, (acCreateMultiBlank_spec hcr).2.1⟩
    · exact ⟨(acCreateSingleBlank_spec hcr).1, (acCreateSingleBlank_spec hcr).2.1⟩

/-- Witness for C7's generate-level clause at a concrete sentence. -/
theorem cloze_parallel_array_lengths_witness :
    (((acGenerate id 5 2 4
        [⟨"they should always, prepare breakfast because students usually arrive early"⟩]
        [] "t" "l").getD []).headD
          ⟨"", "", "", "", [], [], [], ""⟩).text_parts.length =
      (((acGenerate id 5 2 4
        [⟨"they should always, prepare breakfast because students usually arrive early"⟩]
        [] "t" "l").getD []).headD
          ⟨"", "", "", "", [], [], [], ""⟩).correct.length + 1 ∧
    (((acGenerate id 5 2 4
        [⟨"they should always, prepare breakfast because students usually arrive early"⟩]
        [] "t" "l").getD []).headD
          ⟨"", "", "", "", [], [], [], ""⟩).options.length =
      (((acGenerate id 5 2 4
        [⟨"they should always, prepare breakfast because students usually arrive early"⟩]
        [] "t" "l").getD []).headD
          ⟨"", "", "", "", [], [], [], ""⟩).correct.length :=
  cloze_parallel_array_lengths.2.2 id 5 2 4
    [⟨"they should always, prepare breakfast because students usually arrive early"⟩]
    [] "t" "l"
    ((acGenerate id 5 2 4
      [⟨"they should always, prepare breakfast because students usually arrive early"⟩]
      [] "t" "l").getD [])
    (by decide) _ (by decide)

/-!
## C5 — the correct-answer key and its option list
-/

/-- **C5, counterexample.**  The raw `correct[i]` entry of a multi-blank
cloze item need not be a member of `options[i]`: the options hold the
cleaned (lower-cased, punctuation-stripped) word, while `correct` keeps the
original token.  Here `correct[0] = "always,"` (with comma) but
`options[0] = ["always", "complete", "consider", "continue"]`. -/
theorem cloze_correct_key_claim_false :
    ∃ it ∈ (acGenerate id 5 2 4
        [⟨"they should always, prepare breakfast because students usually arrive early"⟩]
        [] "t" "l").getD [],
      0 < it.correct.length ∧ it.correct.getD 0 "" ∉ it.options.getD 0 [] := by
  decide

/-- **C5, amended.**  For every advanced-cloze item and every blank `i`,
the cleaned form (`re.sub(r'[^\w]', '', ·).lower()`) of `correct[i]` is an
element of `options[i]`; the raw `correct[i]`, which keeps its original
case and punctuation, need not be. -/
theorem cloze_cleaned_correct_in_options :
    ∀ (shuffle : List String → List String),
      (∀ l : List String, (shuffle l).Perm l) →
      ∀ (fuel minI maxI : Nat) (sentences : List ACSentence)
        (vocabulary : List VocabItem) (topic lesson : String)
        (items : List ClozeItem),
        acGenerate shuffle fuel minI maxI sentences vocabulary topic lesson =
          some items →
        ∀ it ∈ items, ∀ i, i < it.correct.length →
          cleanWord (it.correct.getD i "") ∈ it.options.getD i [] := by
  intro shuffle hperm fuel minI maxI sentences vocabulary topic lesson items h it hit i hi
  obtain ⟨s, r, hcr, ht, ho, hc⟩ := acGenerate_mem h it hit
  rw [ho, hc]
  rw [hc] at hi
  rcases hcr with hcr | hcr
  · exact (acCreateMultiBlank_spec hcr).2.2 hperm i hi
  · exact (acCreateSingleBlank_spec hcr).2.2 hperm i hi

/-- Witness for C5's amended theorem at the same concrete sentence. -/
theorem cloze_cleaned_correct_in_options_witness :
    cleanWord ((((acGenerate id 5 2 4
        [⟨"they should always, prepare breakfast because students usually arrive early"⟩]
        [] "t" "l").getD []).headD
          ⟨"", "", "", "", [], [], [], ""⟩).correct.getD 0 "") ∈
      (((acGenerate id 5 2 4
        [⟨"they should always, prepare breakfast because students usually arrive early"⟩]
        [] "t" "l").getD []).headD
          ⟨"", "", "", "", [], [], [], ""⟩).options.getD 0 [] :=
  cloze_cleaned_correct_in_options id (fun l => List.Perm.refl l) 5 2 4
    [⟨"they should always, prepare breakfast because students usually arrive early"⟩]
    [] "t" "l"
    ((acGenerate id 5 2 4
      [⟨"they should always, prepare breakfast because students usually arrive early"⟩]
      [] "t" "l").getD [])
    (by decide) _ (by decide) 0 (by decide)

/-!
## C3 — fill-in-blank invariants
-/

theorem filter_ne_length {l : List String} {x : String} (h : l.Nodup) :
    l.length - 1 ≤ (l.filter (fun w => w ≠ x)).length := by
  induction l with
  | nil => simp
  | cons a t ih =>
    rw [List.nodup_cons] at h
    rw [List.filter_cons]
    by_cases ha : a = x
    · subst ha
      rw [if_neg (by simp)]
      have hft : t.filter (fun w => w ≠ a) = t := by
        rw [List.filter_eq_self]
        intro b hb
        simp only [decide_eq_true_eq]
        exact fun hba => h.1 (hba ▸ hb)
      rw [hft]
      simp
    · rw [if_pos (by simpa using ha)]
      have := ih h.2
      simp only [List.length_cons]
      omega

/-- A list of at least three elements, cut to three, has exactly three
elements and is not empty. -/
theorem take3_of_ge3 {l : List String} (h : 3 ≤ l.length) :
    (l.take 3).length = 3 ∧ (l.take 3).isEmpty = false := by
  constructor
  · rw [List.length_take]
    exact Nat.min_eq_left h
  · cases hl : l.take 3 with
    | nil =>
      have h0 := congrArg List.length hl
      rw [List.length_take, Nat.min_eq_left h] at h0
      simp only [List.length_nil] at h0
      exact absurd h0 (by decide)
    | cons a t => rfl

/-- With `count = 3`, the rule-based fallback always returns exactly three
distractors. -/
theorem geminiFallback_len3 {shuffle : List String → List String}
    (hperm : ∀ l : List String, (shuffle l).Perm l) (w : String) :
    (geminiFallbackDistractors shuffle w 3).length = 3 := by
  simp only [geminiFallbackDistractors]
  cases hf : distractorPool.find? (fun p => p.1 = pyLower w) with
  | some p =>
    have hall : ∀ q ∈ distractorPool, q.2.length = 3 := by decide
    have h3 : p.2.length = 3 := hall p (List.mem_of_find?_eq_some hf)
    rw [(hperm _).length_eq, List.length_take, h3]
    simp
  | none =>
    simp only [hf]
    by_cases hed : pyEndsWith "ed" (pyLower w) = true
    · simp [hed]
    · simp only [hed, Bool.false_eq_true, if_false]
      by_cases hing : pyEndsWith "ing" (pyLower w) = true
      · simp [hing]
      · simp only [hing, Bool.false_eq_true, if_false]
        by_cases hs : (pyEndsWith "s" (pyLower w) && decide ((pyLower w).length > 3)) = true
        · simp [hs]
        · simp only [hs, Bool.false_eq_true, if_false]
          by_cases hly : pyEndsWith "ly" (pyLower w) = true
          · simp [hly]
          · simp only [hly, Bool.false_eq_true, if_false, List.isEmpty_nil, if_true]
            cases hg : semanticGroups.find? (fun g => g.2.contains (pyLower w)) with
            | some g =>
              have hallg : ∀ q ∈ semanticGroups, q.2.Nodup ∧ q.2.length = 5 := by decide
              have hq := hallg g (List.mem_of_find?_eq_some hg)
              simp only [hg]
              have hfl := filter_ne_length (l := g.2) (x := pyLower w) hq.1
              rw [hq.2] at hfl
              obtain ⟨hlen3, hne⟩ := take3_of_ge3
                (l := g.2.filter (fun v => v ≠ pyLower w)) (by omega)
              rw [hne]
              simp only [Bool.false_eq_true, if_false]
              rw [List.length_take, hlen3]
              simp
            | none =>
              simp only [hg, List.isEmpty_nil, if_true]
              have hnodup : commonConfusions.Nodup ∧ commonConfusions.length = 12 := by decide
              have hfl := filter_ne_length (l := commonConfusions) (x := pyLower w) hnodup.1
              rw [hnodup.2] at hfl
              obtain ⟨hlen3, hne⟩ := take3_of_ge3
                (l := commonConfusions.filter (fun v => v ≠ pyLower w)) (by omega)
              rw [List.length_take, hlen3]
              simp

theorem findWordCI_decomp {target : List Char} :
    ∀ {s : List Char} {prev : Option Char} {pre post : List Char},
      findWordCI target prev s = some (pre, post) →
      ∃ m, s = pre ++ m ++ post ∧ m.length = target.length := by
  intro s
  induction s with
  | nil =>
    intro prev pre post h
    rw [findWordCI] at h
    split at h
    · rename_i hw
      simp only [Option.some.injEq, Prod.mk.injEq] at h
      obtain ⟨h1, h2⟩ := h
      subst h1; subst h2
      refine ⟨[], by simp, ?_⟩
      unfold wordHereCI ciPrefix at hw
      simp only [Bool.and_eq_true, decide_eq_true_eq] at hw
      have hle := hw.1.2.2
      simp only [List.length_nil, Nat.le_zero] at hle
      simp [hle]
    · exact absurd h (by simp)
  | cons c rest ih =>
    intro prev pre post h
    rw [findWordCI] at h
    split at h
    · rename_i hw
      simp only [Option.some.injEq, Prod.mk.injEq] at h
      obtain ⟨h1, h2⟩ := h
      subst h1; subst h2
      refine ⟨(c :: rest).take target.length, ?_, ?_⟩
      · rw [List.nil_append, List.take_append_drop]
      · rw [List.length_take]
        unfold wordHereCI ciPrefix at hw
        simp only [Bool.and_eq_true, decide_eq_true_eq] at hw
        exact Nat.min_eq_left hw.1.2.2
    · cases hrec : findWordCI target (some c) rest with
      | none => rw [hrec] at h; exact absurd h (by simp)
      | some pr =>
        rw [hrec] at h
        simp only [Option.map_some', Option.some.injEq, Prod.mk.injEq] at h
        obtain ⟨h1, h2⟩ := h
        obtain ⟨m, hm, hlen⟩ := ih hrec
        subst h1; subst h2
        refine ⟨m, ?_, hlen⟩
        simp only [List.cons_append]
        rw [← hm]

/-- The explicit character list behind the marker. -/
theorem marker5_eq : marker5 = ['_', '_', '_', '_', '_'] := rfl

theorem cons_not_prefix_of_head {a c : Char} {as l : List Char} (h : a ≠ c) :
    (a :: as).isPrefixOf (c :: l) = false := by
  show (a == c && as.isPrefixOf l) = false
  have : (a == c) = false := by simpa using h
  rw [this]
  simp

theorem marker_not_prefix_head {c : Char} {l : List Char} (hc : c ≠ '_') :
    ¬ marker5.isPrefixOf (c :: l) = true := by
  rw [marker5_eq]
  rw [cons_not_prefix_of_head (fun h => hc h.symm)]
  simp

theorem countSub_marker_zero : ∀ {l : List Char}, '_' ∉ l → countSub marker5 l = 0 := by
  intro l
  induction l with
  | nil => intro _; rfl
  | cons c rest ih =>
    intro hmem
    have hc : c ≠ '_' := fun hc => hmem (hc ▸ List.mem_cons_self c rest)
    rw [countSub, if_neg (marker_not_prefix_head hc),
      ih (fun hr => hmem (List.mem_cons_of_mem c hr))]

theorem repl_not_prefix {post : List Char} (hpost : '_' ∉ post) :
    ∀ (j n : Nat), j < n →
      (List.replicate n '_').isPrefixOf (List.replicate j '_' ++ post) = false := by
  intro j
  induction j with
  | zero =>
    intro n hn
    cases n with
    | zero => omega
    | succ m =>
      rw [List.replicate_succ]
      rw [show List.replicate 0 '_' = ([] : List Char) from rfl, List.nil_append]
      cases post with
      | nil => rfl
      | cons c t =>
        exact cons_not_prefix_of_head
          (fun h => hpost (by rw [h]; exact List.mem_cons_self c t))
  | succ k ih =>
    intro n hn
    cases n with
    | zero => omega
    | succ m =>
      rw [List.replicate_succ, List.replicate_succ, List.cons_append]
      show (('_' :: List.replicate m '_').isPrefixOf
        ('_' :: (List.replicate k '_' ++ post))) = false
      rw [show (('_' :: List.replicate m '_').isPrefixOf
          ('_' :: (List.replicate k '_' ++ post))) =
          (('_' : Char) == '_' && (List.replicate m '_').isPrefixOf
            (List.replicate k '_' ++ post)) from rfl]
      rw [ih m (by omega)]
      simp

theorem countSub_run {post : List Char} (hpost : '_' ∉ post) :
    ∀ (j : Nat), j ≤ 4 → countSub marker5 (List.replicate j '_' ++ post) = 0 := by
  intro j
  induction j with
  | zero =>
    intro _
    simpa using countSub_marker_zero hpost
  | succ k ih =>
    intro hk
    have hnp : marker5.isPrefixOf (List.replicate (k + 1) '_' ++ post) = false := by
      have h5 := repl_not_prefix hpost (k + 1) 5 (by omega)
      rw [marker5_eq]
      rw [show (['_', '_', '_', '_', '_'] : List Char) = List.replicate 5 '_' from rfl]
      exact h5
    rw [List.replicate_succ, List.cons_append, countSub]
    rw [List.replicate_succ, List.cons_append] at hnp
    rw [if_neg (by simp [hnp])]
    have := ih (by omega)
    omega

theorem countSub_marker_insert :
    ∀ {pre : List Char} {post : List Char}, '_' ∉ pre → '_' ∉ post →
      countSub marker5 (pre ++ marker5 ++ post) = 1 := by
  intro pre
  induction pre with
  | nil =>
    intro post _ hpost
    rw [List.nil_append]
    have hshape : marker5 ++ post = '_' :: (List.replicate 4 '_' ++ post) := by
      rw [marker5_eq]; rfl
    rw [hshape, countSub]
    have hpref : marker5.isPrefixOf ('_' :: (List.replicate 4 '_' ++ post)) = true := by
      rw [← hshape]
      exact List.isPrefixOf_iff_prefix.mpr (List.prefix_append _ _)
    rw [if_pos hpref, countSub_run hpost 4 (by omega)]
  | cons c rest ih =>
    intro post hpre hpost
    have hc : c ≠ '_' := fun hc => hpre (hc ▸ List.mem_cons_self c rest)
    rw [List.cons_append, List.cons_append, countSub,
      if_neg (marker_not_prefix_head hc)]
    rw [ih (fun hr => hpre (List.mem_cons_of_mem c hr)) hpost]

theorem countSub_ge_one {pat : List Char} (hne : pat ≠ []) :
    ∀ (pre post : List Char), 1 ≤ countSub pat (pre ++ pat ++ post) := by
  intro pre
  induction pre with
  | nil =>
    intro post
    rw [List.nil_append]
    obtain ⟨c, cs, rfl⟩ : ∃ c cs, pat = c :: cs := by
      cases pat with
      | nil => exact absurd rfl hne
      | cons c cs => exact ⟨c, cs, rfl⟩
    rw [List.cons_append, countSub, if_pos ?_]
    · omega
    · rw [← List.cons_append]
      exact List.isPrefixOf_iff_prefix.mpr (List.prefix_append _ _)
  | cons c rest ih =>
    intro post
    rw [List.cons_append, List.cons_append, countSub]
    have := ih post
    split <;> omega

/-- Both end-strips return a sublist of their input. -/
theorem stripEnds_sublist (p : Char → Bool) (s : List Char) :
    ((s.dropWhile p).reverse.dropWhile p).reverse.Sublist s := by
  have h1 : (s.dropWhile p).Sublist s := List.dropWhile_sublist p
  have h2 : ((s.dropWhile p).reverse.dropWhile p).Sublist (s.dropWhile p).reverse :=
    List.dropWhile_sublist p
  have h3 := h2.reverse
  rw [List.reverse_reverse] at h3
  exact h3.trans h1

theorem mem_four {l : List String} {x : String} (hlen : l.length = 4) (hx : x ∈ l) :
    x ∈ [l.getD 0 "", l.getD 1 "", l.getD 2 "", l.getD 3 ""] := by
  rcases l with _ | ⟨a, _ | ⟨b, _ | ⟨c, _ | ⟨d, _ | ⟨e, t⟩⟩⟩⟩⟩ <;> simp_all [List.getD]

theorem ofNat_mem_ABCD {i : Nat} (h : i < 4) :
    Char.ofNat (65 + i) ∈ (['A', 'B', 'C', 'D'] : List Char) := by
  interval_cases i <;> decide

theorem fibCreateExercise_spec {shuffle : List String → List String}
    (hperm : ∀ l : List String, (shuffle l).Perm l) {enabled : Bool}
    {s0 t0 ctx : String} {ex : FIBExercise}
    (h : fibCreateExercise shuffle enabled s0 t0 ctx = some ex) :
    ex.correct_word ∈ [ex.option_a, ex.option_b, ex.option_c, ex.option_d] ∧
    ex.correct_answer ∈ (['A', 'B', 'C', 'D'] : List Char) ∧
    1 ≤ countSub marker5 ex.sentence.data ∧
    ('_' ∉ s0.data → countSub marker5 ex.sentence.data = 1) := by
  simp only [fibCreateExercise] at h
  cases hf : findWordCI (pyStripChars punctQuoteChars t0).data none
      (pyStripChars ['"'] (pyStrip s0)).data with
  | none => rw [hf] at h; exact absurd h (by simp)
  | some pr =>
    rw [hf] at h
    simp only [Option.some.injEq] at h
    subst h
    have hdlen : (geminiGenerateDistractors shuffle enabled
        (pyStripChars punctQuoteChars t0) (pyStripChars ['"'] (pyStrip s0)) 3).length = 3 :=
      geminiFallback_len3 hperm _
    have holen : (shuffle ([pyStripChars punctQuoteChars t0] ++
        geminiGenerateDistractors shuffle enabled (pyStripChars punctQuoteChars t0)
          (pyStripChars ['"'] (pyStrip s0)) 3)).length = 4 := by
      rw [(hperm _).length_eq]
      simp [hdlen]
    have hpad : shuffle ([pyStripChars punctQuoteChars t0] ++
        geminiGenerateDistractors shuffle enabled (pyStripChars punctQuoteChars t0)
          (pyStripChars ['"'] (pyStrip s0)) 3) ++
        List.replicate (4 - (shuffle ([pyStripChars punctQuoteChars t0] ++
          geminiGenerateDistractors shuffle enabled (pyStripChars punctQuoteChars t0)
            (pyStripChars ['"'] (pyStrip s0)) 3)).length) "" =
        shuffle ([pyStripChars punctQuoteChars t0] ++
          geminiGenerateDistractors shuffle enabled (pyStripChars punctQuoteChars t0)
            (pyStripChars ['"'] (pyStrip s0)) 3) := by
      rw [holen]
      simp
    have hmem : pyStripChars punctQuoteChars t0 ∈
        shuffle ([pyStripChars punctQuoteChars t0] ++
          geminiGenerateDistractors shuffle enabled (pyStripChars punctQuoteChars t0)
            (pyStripChars ['"'] (pyStrip s0)) 3) :=
      (hperm _).mem_iff.mpr (by simp)
    refine ⟨?_, ?_, ?_, ?_⟩
    · show pyStripChars punctQuoteChars t0 ∈ _
      simp only [hpad]
      exact mem_four holen hmem
    · show Char.ofNat (65 + _) ∈ _
      simp only [hpad]
      exact ofNat_mem_ABCD (by
        have := List.indexOf_lt_length.mpr hmem
        omega)
    · exact countSub_ge_one (by decide) pr.1 pr.2
    · intro hund
      have hsub1 : (pyStripL s0.data).Sublist s0.data := stripEnds_sublist _ _
      have hsub2 : (pyStripCharsL ['"'] (pyStripL s0.data)).Sublist (pyStripL s0.data) :=
        stripEnds_sublist _ _
      have hclean : '_' ∉ (pyStripChars ['"'] (pyStrip s0)).data :=
        fun hm => hund ((hsub2.trans hsub1).mem hm)
      obtain ⟨m, hm, _⟩ := findWordCI_decomp hf
      rw [hm] at hclean
      simp only [List.mem_append] at hclean
      push_neg at hclean
      exact countSub_marker_insert (fun hp => hclean.1.1 hp) (fun hp => hclean.2 hp)

theorem fibLoop1_mem {shuffle : List String → List String} {enabled : Bool}
    {maxEx : Nat} :
    ∀ {ms : List Mistake} {acc : List FIBExercise} {used : List String},
      ∀ ex ∈ (fibLoop1 shuffle enabled maxEx acc used ms).1,
        ex ∈ acc ∨ ∃ m ∈ ms,
          fibCreateExercise shuffle enabled m.correct m.focus_word "correction" =
            some ex := by
  intro ms
  induction ms with
  | nil =>
    intro acc used ex hex
    exact Or.inl (by simpa [fibLoop1] using hex)
  | cons m rest ih =>
    intro acc used ex hex
    rw [fibLoop1] at hex
    split at hex
    · exact Or.inl hex
    · dsimp only at hex
      split at hex
      · cases hc : fibCreateExercise shuffle enabled m.correct m.focus_word
            "correction" with
        | some e2 =>
          rw [hc] at hex
          rcases ih ex hex with hmem | ⟨m2, hm2, hcm⟩
          · rw [List.mem_append] at hmem
            rcases hmem with hmem | hmem
            · exact Or.inl hmem
            · rw [List.mem_singleton] at hmem
              subst hmem
              exact Or.inr ⟨m, List.mem_cons_self m rest, hc⟩
          · exact Or.inr ⟨m2, List.mem_cons_of_mem m hm2, hcm⟩
        | none =>
          rw [hc] at hex
          rcases ih ex hex with hmem | ⟨m2, hm2, hcm⟩
          · exact Or.inl hmem
          · exact Or.inr ⟨m2, List.mem_cons_of_mem m hm2, hcm⟩
      · rcases ih ex hex with hmem | ⟨m2, hm2, hcm⟩
        · exact Or.inl hmem
        · exact Or.inr ⟨m2, List.mem_cons_of_mem m hm2, hcm⟩

theorem fibLoop2_mem {shuffle : List String → List String} {enabled : Bool}
    {choose : List String → String} {maxEx : Nat} :
    ∀ {sds : List SentenceRec} {acc : List FIBExercise} {used : List String},
      ∀ ex ∈ (fibLoop2 shuffle enabled choose maxEx acc used sds).1,
        ex ∈ acc ∨ ∃ sd ∈ sds, ∃ t,
          fibCreateExercise shuffle enabled sd.sentence t "practice" = some ex := by
  intro sds
  induction sds with
  | nil =>
    intro acc used ex hex
    exact Or.inl (by simpa [fibLoop2] using hex)
  | cons sd rest ih =>
    intro acc used ex hex
    rw [fibLoop2] at hex
    split at hex
    · exact Or.inl hex
    · dsimp only at hex
      split at hex
      · split at hex
        · cases hc : fibCreateExercise shuffle enabled sd.sentence
              (choose (((pySplitWs sd.sentence).filter
                (fun w => w.length > 3 && w.data.all Char.isAlpha)).take 3))
              "practice" with
          | some e2 =>
            rw [hc] at hex
            rcases ih ex hex with hmem | ⟨sd2, hm2, t, hcm⟩
            · rw [List.mem_append] at hmem
              rcases hmem with hmem | hmem
              · exact Or.inl hmem
              · rw [List.mem_singleton] at hmem
                subst hmem
                exact Or.inr ⟨sd, List.mem_cons_self sd rest, _, hc⟩
            · exact Or.inr ⟨sd2, List.mem_cons_of_mem sd hm2, t, hcm⟩
          | none =>
            rw [hc] at hex
            rcases ih ex hex with hmem | ⟨sd2, hm2, t, hcm⟩
            · exact Or.inl hmem
            · exact Or.inr ⟨sd2, List.mem_cons_of_mem sd hm2, t, hcm⟩
        · rcases ih ex hex with hmem | ⟨sd2, hm2, t, hcm⟩
          · exact Or.inl hmem
          · exact Or.inr ⟨sd2, List.mem_cons_of_mem sd hm2, t, hcm⟩
      · rcases ih ex hex with hmem | ⟨sd2, hm2, t, hcm⟩
        · exact Or.inl hmem
        · exact Or.inr ⟨sd2, List.mem_cons_of_mem sd hm2, t, hcm⟩

/-- **C3, amended.**  Every fill-in-blank exercise has its correct word
among the four options and a correct-answer letter in {A, B, C, D}; its
sentence contains the `_____` marker at least once, and exactly once as
soon as no input sentence already contains an underscore (an input sentence
carrying `_____` makes the marker appear twice — see the counterexample). -/
theorem fib_exercise_invariants :
    ∀ (shuffle : List String → List String),
      (∀ l : List String, (shuffle l).Perm l) →
      ∀ (enabled : Bool) (choose : List String → String) (maxEx : Nat)
        (vocabulary : List VocabItem) (mistakes : List Mistake)
        (sentences : List SentenceRec),
        ∀ ex ∈ fibGenerate shuffle enabled choose maxEx vocabulary mistakes sentences,
          ex.correct_word ∈ [ex.option_a, ex.option_b, ex.option_c, ex.option_d] ∧
          ex.correct_answer ∈ (['A', 'B', 'C', 'D'] : List Char) ∧
          1 ≤ countSub marker5 ex.sentence.data ∧
          ((∀ m ∈ mistakes, '_' ∉ m.correct.data) →
           (∀ sd ∈ sentences, '_' ∉ sd.sentence.data) →
           countSub marker5 ex.sentence.data = 1) := by
  intro shuffle hperm enabled choose maxEx vocabulary mistakes sentences ex hex
  have hsrc :
      (∃ m ∈ mistakes.take maxEx,
        fibCreateExercise shuffle enabled m.correct m.focus_word "correction" =
          some ex) ∨
      (∃ sd ∈ sentences, ∃ t,
        fibCreateExercise shuffle enabled sd.sentence t "practice" = some ex) := by
    unfold fibGenerate at hex
    rcases fibLoop2_mem ex hex with hmem | hsd
    · rcases fibLoop1_mem ex hmem with hnil | hm
      · cases hnil
      · exact Or.inl hm
    · exact Or.inr hsd
  rcases hsrc with ⟨m, hm, hc⟩ | ⟨sd, hsd, t, hc⟩
  · obtain ⟨h1, h2, h3, h4⟩ := fibCreateExercise_spec hperm hc
    exact ⟨h1, h2, h3, fun hmis _ => h4 (hmis m (List.mem_of_mem_take hm))⟩
  · obtain ⟨h1, h2, h3, h4⟩ := fibCreateExercise_spec hperm hc
    exact ⟨h1, h2, h3, fun _ hsds => h4 (hsds sd hsd)⟩

/-- **C3, counterexample.**  An input whose corrected sentence already
contains `_____` produces an exercise whose sentence holds the marker
twice, so "occurs exactly once" fails as stated.  The mistake list here is
itself produced by `MistakeExtractor.extract` from a transcript, so the
input is reachable end to end. -/
theorem fib_marker_claim_false :
    ∃ ex ∈ fibGenerate id true (fun l => l.headD "") 4 []
        (mistakeExtract
          "Student: I _____ wake to 7.\nTeacher: Correction: I _____ wake at 7") [],
      countSub marker5 ex.sentence.data ≠ 1 := by
  decide

/-- Witness for C3's amended theorem on the wake/waking scenario. -/
theorem fib_exercise_invariants_witness :
    ("wake" : String) ∈ (["wake", "wakes", "waking", "woken"] : List String) ∧
    ('A' : Char) ∈ (['A', 'B', 'C', 'D'] : List Char) ∧
    countSub marker5 ("I _____ up at 7 AM" : String).data = 1 :=
  have h := fib_exercise_invariants id (fun l => List.Perm.refl l) true
    (fun l => l.headD "") 4 []
    [{ incorrect := "I waking up at 7 AM.", correct := "I wake up at 7 AM",
       error_type := "grammar_verb_tense", focus_word := "wake", severity := "high" }]
    []
    { exercise_id := "FB_18", sentence := "I _____ up at 7 AM",
      option_a := "wake", option_b := "wakes", option_c := "waking",
      option_d := "woken", correct_answer := 'A', correct_word := "wake",
      difficulty := "beginner", context_type := "correction" }
    (by decide)
  ⟨h.1, h.2.1, h.2.2.2 (by decide) (by decide)⟩

end LessonExtractor
